import Mathlib

/-!
# Verification of the AtomicChess rule engine (`src/atomic_chess.py`)

Shallow embedding of the engine logic of `atomic_chess.py` (class
`AtomicChessGame` plus helper classes), together with theorems settling the
frozen claims about the engine.

Modelling conventions:
* Python `board[y][x]` (a `rows × cols` grid of optional pieces) is embedded
  as a total function `Pos → Option Piece`; the engine only ever reads or
  writes in-bounds cells, and all bounds checks of the source are kept.
* Python `dict`s keyed by strings are embedded as association lists with
  dict-style insert (replace in place, else append), matching insertion-order
  iteration of Python dicts.
* Python `set`s of squares are embedded as duplicate-free lists with
  membership-guarded insertion (`setInsert`) and erasure (`setErase`).
* Python floats (script parameters, probabilities) are embedded as `Rat`;
  the claims settled here do not depend on floating-point rounding.
* `random.random()` / `random.choice` / `random.randint` are embedded by an
  explicit random-value oracle (`Rng`) threaded through the functions that
  draw from it, in the exact order the source draws.
* `pygame.time.get_ticks()` is passed in as an explicit `now_ms` argument.
* Outbound OSC messages (`/move`, `/game_over`) and the explosion animation
  are pure outputs; the OSC game-over/move messages are modelled as an event
  list, the animation (display only) is dropped.
-/

namespace AtomicChess

/-- Python `str.lower()` for the ASCII names the engine compares
(script names, colors, type names). -/
def strLower (s : String) : String := String.mk (s.data.map Char.toLower)

/-- Python `str.upper()` for the ASCII symbols the engine builds. -/
def strUpper (s : String) : String := String.mk (s.data.map Char.toUpper)

/-- A board coordinate `(x, y)`; `board[y][x]` in the source. -/
abbrev Pos := Int × Int

/-- The per-piece mutable state bag `Piece.state` (a Python dict).  Fields
mirror the keys the source reads/writes; `get(key, default)` accesses with a
constant default are embedded as non-optional fields with that default, while
keys whose *presence* the source tests (`heat_bonus`, `decay_left`,
`script_name_override`, `script_param_override`) are embedded as `Option`. -/
structure PieceState where
  script_name_override : Option String := none
  script_param_override : Option Rat := none
  range_bonus : Int := 0
  heat_bonus : Option Int := none
  decay_left : Option Int := none
  charge_count : Int := 0
  heat_count : Int := 0
  entropy_level : Int := 0
deriving DecidableEq, Repr

/-- `class Piece` of the source. -/
structure Piece where
  color : String
  type_name : String
  symbol : String
  state : PieceState := {}
deriving DecidableEq, Repr

/-- `Piece.__init__` with `symbol=None`: symbol defaults to the uppercased
first character of the type name. -/
def mkPiece (color type_name : String) : Piece :=
  { color := color, type_name := type_name,
    symbol := strUpper (String.mk (type_name.data.take 1)) }

/-- `class PieceType` of the source. -/
structure PieceType where
  name : String
  kind : String
  directions : List (Int × Int) := []
  max_range : Option Int := some 1
  can_jump : Bool := false
  explosion_radius : Option Int := none
  immune_to_explosion : Bool := false
  damaged_ok : Bool := false
  is_royal : Bool := false
  script_name : Option String := none
  script_param : Rat := 0
deriving DecidableEq, Repr

/-- The global rules dict (`init_default_rules`), typed field-by-field. -/
structure Rules where
  capture_mode : String
  atomic_radius : Int
  center_damages : Bool
  center_survives : Bool
  damage_blocks_move : Bool
  victory : String
  max_fullmoves : Int
  max_seconds : Int
  limit_result : String
  osc_neighbour_radius : Int
  osc_neighbours : Bool
  osc_label : String
deriving DecidableEq, Repr

/-- `init_default_rules` of the source. -/
def init_default_rules : Rules :=
  { capture_mode := "atomic"
    atomic_radius := 1
    center_damages := true
    center_survives := true
    damage_blocks_move := true
    victory := "elimination"
    max_fullmoves := 0
    max_seconds := 0
    limit_result := "draw"
    osc_neighbour_radius := 2
    osc_neighbours := true
    osc_label := "" }

/-- A chunk enter/leave script descriptor: the `{"name": ..., "param": ...}`
dicts stored in `chunks[name]["enter_script"/"leave_script"]`.  Imported
dicts may lack either key, so both are optional; the engine-created ones
always carry both. -/
structure ScriptDesc where
  name : Option String := none
  param : Option Rat := none
deriving DecidableEq, Repr

/-- A chunk fill descriptor `{"color": ..., "type": ...}`; imported dicts may
lack keys, defaults are applied at the use site (`toggle_chunk`). -/
structure Fill where
  color : Option String := none
  type_ : Option String := none
deriving DecidableEq, Repr

/-- One entry of the `chunks` dict. -/
structure Chunk where
  rect : Int × Int × Int × Int
  fill : Option Fill := none
  active : Bool := true
  owner : String := "any"
  enter_script : Option ScriptDesc := none
  leave_script : Option ScriptDesc := none
deriving DecidableEq, Repr

/-- One entry of `edge_triggers`: either a chunk-toggle trigger
(`{type, dist, chunk}`) or a random-spawn trigger
(`{type, dist, mode:"random", minw, maxw, minh, maxh}`). -/
inductive Trigger where
  | chunkT (type_ : String) (dist : Int) (chunk : String)
  | randomT (type_ : String) (dist : Int) (minw maxw minh maxh : Int)
deriving DecidableEq, Repr

/-- Random oracle: the streams of values returned by `random.random()`
(unit-interval draws) and by the integer draws underlying `random.choice` /
`random.randint`. -/
structure Rng where
  reals : List Rat := []
  nats : List Nat := []
deriving DecidableEq, Repr

/-- Draw the next `random.random()` value (0 once the oracle is exhausted). -/
def Rng.nextReal : Rng → Rat × Rng
  | ⟨[], ns⟩ => (0, ⟨[], ns⟩)
  | ⟨r :: rs, ns⟩ => (r, ⟨rs, ns⟩)

/-- Draw the next raw integer value used for `random.choice`/`randint`. -/
def Rng.nextNat : Rng → Nat × Rng
  | ⟨rs, []⟩ => (0, ⟨rs, []⟩)
  | ⟨rs, n :: ns⟩ => (n, ⟨rs, ns⟩)

/-- `random.choice(l)` for nonempty `l` (default `d` is never used when the
source calls it, since the source only calls `choice` on nonempty lists). -/
def rngChoice {α : Type} (rng : Rng) (l : List α) (d : α) : α × Rng :=
  let (n, rng') := rng.nextNat
  (l.getD (n % l.length) d, rng')

/-- `random.randint(a, b)`: a uniform draw in `[a, b]`, realised from the
oracle.  (For `a > b` the source call would raise; the embedding returns `a`,
a branch no theorem below depends on.) -/
def rngRandint (rng : Rng) (a b : Int) : Int × Rng :=
  let (n, rng') := rng.nextNat
  if a ≤ b then (a + (n : Int) % (b - a + 1), rng') else (a, rng')

/-- Events emitted to the outside world over OSC (`send_move_osc`,
`send_game_over_osc`). -/
inductive Ev where
  | moved (from_sq to_sq : Pos) (captured : String)
  | gameOver (result : String) (reason : String)
deriving DecidableEq, Repr

/-- The engine state: the fields of `AtomicChessGame` that the game logic
reads or writes (rendering/DSL-console fields are omitted; they never feed
back into the engine). -/
structure GameState where
  cols : Int
  rows : Int
  board : Pos → Option Piece
  piece_types : List (String × PieceType)
  turn : String
  fullmove : Int
  game_over : Bool
  result_text : String
  damaged : List Pos
  rules : Rules
  chunks : List (String × Chunk)
  edge_triggers : List Trigger
  rand_chunk_counter : Int
  last_move : Option (Pos × Pos)
  selected_square : Option Pos
  legal_targets : List Pos
  start_time_ms : Int

/-- Point update of the board function (`self.board[y][x] = v`). -/
def bupd (b : Pos → Option Piece) (q : Pos) (v : Option Piece) :
    Pos → Option Piece :=
  fun p => if p = q then v else b p

/-- Python-dict insertion `d[k] = v` on an association list: replace the
first binding of `k` in place, else append. -/
def dictInsert {α : Type} : List (String × α) → String → α → List (String × α)
  | [], k, v => [(k, v)]
  | (k', v') :: rest, k, v =>
      if k' = k then (k, v) :: rest else (k', v') :: dictInsert rest k v

/-- Python-set insertion `s.add(q)` on a duplicate-free list. -/
def setInsert (l : List Pos) (q : Pos) : List Pos :=
  if q ∈ l then l else l ++ [q]

/-- Python-set removal `s.remove(q)` / conditional removal on a list. -/
def setErase (l : List Pos) (q : Pos) : List Pos := l.erase q

/-- `in_bounds` of the source. -/
def GameState.in_bounds (s : GameState) (q : Pos) : Bool :=
  decide (0 ≤ q.1 ∧ q.1 < s.cols ∧ 0 ≤ q.2 ∧ q.2 < s.rows)

/-- `square_blocked_by_damage` of the source (lines 529-537). -/
def square_blocked_by_damage (s : GameState) (q : Pos)
    (piece_type : Option PieceType) : Bool :=
  if q ∈ s.damaged then
    if s.rules.damage_blocks_move then
      match piece_type with
      | some t => !t.damaged_ok
      | none => true
    else false
  else false

/-- The inner stepping loop of the slider branch of
`generate_moves_for_piece` (lines 601-615): walk outward from `(nx, ny)` in
direction `(dx, dy)` with `fuel` steps remaining, stopping at the board edge,
at a damage-blocked square (excluded), or at the first occupied square
(included only when the occupant is an opponent). -/
def slideFrom (s : GameState) (ptype : PieceType) (color : String)
    (nx ny dx dy : Int) : Nat → List Pos
  | 0 => []
  | fuel + 1 =>
    if ¬ s.in_bounds (nx, ny) then []
    else if square_blocked_by_damage s (nx, ny) (some ptype) then []
    else
      match s.board (nx, ny) with
      | none => (nx, ny) :: slideFrom s ptype color (nx + dx) (ny + dy) dx dy fuel
      | some target => if target.color ≠ color then [(nx, ny)] else []

/-- `generate_moves_for_piece` of the source (lines 539-617). -/
def generate_moves_for_piece (s : GameState) (x y : Int) : List Pos :=
  match s.board (x, y) with
  | none => []
  | some piece =>
    match List.lookup piece.type_name s.piece_types with
    | none => []
    | some ptype =>
      if ptype.kind = "pawn" then
        -- Pawn movement (lines 551-579)
        let dir_y : Int := if piece.color = "white" then 1 else -1
        let start_rank : Int := if piece.color = "white" then 1 else s.rows - 2
        let fwd : List Pos :=
          if s.in_bounds (x, y + dir_y) ∧ s.board (x, y + dir_y) = none ∧
              ¬ square_blocked_by_damage s (x, y + dir_y) (some ptype) then
            (x, y + dir_y) ::
              (if y = start_rank ∧ s.in_bounds (x, y + 2 * dir_y) ∧
                  s.board (x, y + 2 * dir_y) = none ∧
                  ¬ square_blocked_by_damage s (x, y + 2 * dir_y) (some ptype) then
                [(x, y + 2 * dir_y)]
              else [])
          else []
        let caps : List Pos :=
          ([-1, 1] : List Int).filterMap (fun dx =>
            let n : Pos := (x + dx, y + dir_y)
            if s.in_bounds n ∧ ¬ square_blocked_by_damage s n (some ptype) then
              match s.board n with
              | some target => if target.color ≠ piece.color then some n else none
              | none => none
            else none)
        fwd ++ caps
      else if ptype.kind = "knight" ∨ (ptype.can_jump ∧ ptype.directions ≠ []) then
        -- Knight / leaper branch (lines 582-594); whenever this branch is
        -- entered the source returns from within it (its guard implies the
        -- guard of the inner return).
        ptype.directions.filterMap (fun d =>
          let n : Pos := (x + d.1, y + d.2)
          if ¬ s.in_bounds n then none
          else if square_blocked_by_damage s n (some ptype) then none
          else
            match s.board n with
            | none => some n
            | some target => if target.color ≠ piece.color then some n else none)
      else
        -- Slider branch (lines 597-615)
        if ptype.directions = [] then []
        else
          let base_max : Int := ptype.max_range.getD (max s.cols s.rows)
          let bonus : Int := piece.state.range_bonus
          let mr : Int :=
            match ptype.max_range with
            | some _ => base_max + bonus
            | none => base_max
          ptype.directions.flatMap (fun d =>
            slideFrom s ptype piece.color (x + d.1) (y + d.2) d.1 d.2 mr.toNat)

/-- `piece_name` of the source. -/
def piece_name : Option Piece → String
  | none => "none"
  | some p => p.color ++ "_" ++ p.type_name

/-- `pos_in_rect` of the source (normalizes the rectangle, inclusive). -/
def pos_in_rect (q : Pos) (rect : Int × Int × Int × Int) : Bool :=
  let (rx1, ry1, rx2, ry2) := rect
  let x1 := min rx1 rx2
  let x2 := max rx1 rx2
  let y1 := min ry1 ry2
  let y2 := max ry1 ry2
  decide (x1 ≤ q.1 ∧ q.1 ≤ x2 ∧ y1 ≤ q.2 ∧ q.2 ≤ y2)

/-- Python `int()` conversion of a numeric value: truncation toward zero. -/
def ratToInt (q : Rat) : Int := if q < 0 then -((-q).floor) else q.floor

/-- The probability clamp used by stutter/jitter
(`max(0.0, min(1.0, p if p <= 1.0 else p / 100.0))`). -/
def clampProb (p : Rat) : Rat := max 0 (min 1 (if p ≤ 1 then p else p / 100))

/-- `resolve_script_descriptor` of the source: `(script_name, script_param)`
from the per-piece override, else the type default.  A `None`/empty name means
no script. -/
def resolve_script_descriptor (piece : Piece) (ptype : Option PieceType) :
    Option String × Rat :=
  match ptype with
  | none => (none, 0)
  | some pt =>
    let sname :=
      match piece.state.script_name_override with
      | some s => some s
      | none => pt.script_name
    match sname with
    | none => (none, 0)
    | some s =>
      if s = "" then (none, 0)
      else (some s, piece.state.script_param_override.getD pt.script_param)

/-- `apply_script_pre_move` of the source: `some` of the (possibly
redirected) destination, or `none` when the move is cancelled. -/
def apply_script_pre_move (piece : Piece) (ptype : Option PieceType)
    (to_sq : Pos) (legal_moves : List Pos) (rng : Rng) : Option Pos × Rng :=
  match resolve_script_descriptor piece ptype with
  | (none, _) => (some to_sq, rng)
  | (some sname0, param) =>
    let sname := strLower sname0
    if sname = "stutter" then
      let p := clampProb param
      let (r, rng') := rng.nextReal
      if r < p then (none, rng') else (some to_sq, rng')
    else if sname = "jitter" then
      let p := clampProb param
      if legal_moves ≠ [] then
        let (r, rng') := rng.nextReal
        if r < p then
          let (c, rng'') := rngChoice rng' legal_moves to_sq
          (some c, rng'')
        else (some to_sq, rng')
      else (some to_sq, rng)
    else if sname = "entropy" then
      let p := max 0 (min 1 (param * (1 + (piece.state.entropy_level : Rat) / 10)))
      if legal_moves ≠ [] then
        let (r, rng') := rng.nextReal
        if r < p then
          let (c, rng'') := rngChoice rng' legal_moves to_sq
          (some c, rng'')
        else (some to_sq, rng')
      else (some to_sq, rng)
    else (some to_sq, rng)

/-- `apply_script_post_move` of the source (lines 686-744).  The source
mutates the mover object in place; the board cell shows the mutation exactly
when it still holds that object.  At every call site of this function the
only object that can sit at `to_sq` with the mover's value is the mover
itself, so the source's identity test `board[ty][tx] is piece` is embedded as
the value test `board to_sq = some piece`.  Returns the updated state and the
updated mover value. -/
def apply_script_post_move (s : GameState) (piece : Piece)
    (ptype : Option PieceType) (to_sq : Pos) : GameState × Piece :=
  match resolve_script_descriptor piece ptype with
  | (none, _) => (s, piece)
  | (some sname0, param) =>
    let sname := strLower sname0
    let alive := s.board to_sq = some piece
    if sname = "decay" then
      let max_moves := ratToInt param
      if max_moves ≤ 0 then (s, piece)
      else
        let left := (piece.state.decay_left.getD max_moves) - 1
        let piece' := { piece with state := { piece.state with decay_left := some left } }
        -- the in-place mutation of the object is visible at `to_sq` iff the
        -- object still occupies it
        let sShown := if alive then { s with board := bupd s.board to_sq (some piece') } else s
        if left ≤ 0 ∧ s.in_bounds to_sq ∧ alive then
          ({ sShown with board := bupd sShown.board to_sq none }, piece')
        else (sShown, piece')
    else if sname = "charge" then
      let threshold := ratToInt param
      if threshold ≤ 0 then (s, piece)
      else
        let count := piece.state.charge_count + 1
        let st' :=
          if threshold ≤ count then
            { piece.state with
              charge_count := 0
              range_bonus := piece.state.range_bonus + 1 }
          else { piece.state with charge_count := count }
        let piece' := { piece with state := st' }
        if alive then ({ s with board := bupd s.board to_sq (some piece') }, piece')
        else (s, piece')
    else if sname = "heat" then
      let threshold := ratToInt param
      if threshold ≤ 0 then (s, piece)
      else
        let count := piece.state.heat_count + 1
        let st' :=
          if threshold ≤ count then
            { piece.state with
              heat_count := 0
              heat_bonus := some ((piece.state.heat_bonus.getD 0) + 1) }
          else { piece.state with heat_count := count }
        let piece' := { piece with state := st' }
        if alive then ({ s with board := bupd s.board to_sq (some piece') }, piece')
        else (s, piece')
    else if sname = "entropy" then
      let piece' := { piece with state :=
        { piece.state with entropy_level := piece.state.entropy_level + 1 } }
      if alive then ({ s with board := bupd s.board to_sq (some piece') }, piece')
      else (s, piece')
    else (s, piece)

/-- The cell offsets visited by the explosion double loop
(`for dy in range(-radius, radius+1): for dx in ...`; `dy` is the outer
loop). -/
def explosionOffsets (radius : Nat) : List (Int × Int) :=
  ((List.range (2 * radius + 1)) ×ˢ (List.range (2 * radius + 1))).map
    (fun p => ((p.2 : Int) - (radius : Int), (p.1 : Int) - (radius : Int)))

/-- One iteration of the explosion removal loop (lines 2146-2160). -/
def explodeStep (center : Pos) (center_survives : Bool) (s : GameState)
    (d : Int × Int) : GameState :=
  let n : Pos := (center.1 + d.1, center.2 + d.2)
  if ¬ s.in_bounds n then s
  else if center_survives ∧ n = center then s
  else
    match s.board n with
    | none => s
    | some victim =>
      match List.lookup victim.type_name s.piece_types with
      | some vtype =>
        if vtype.immune_to_explosion then s
        else { s with board := bupd s.board n none }
      | none => { s with board := bupd s.board n none }

/-- The explosion-radius computation of `try_make_move` (lines 2124-2138):
the piece-type override (clamped at 0) if set, else the global
`atomic_radius` (clamped at 0), plus the clamped heat bonus, the sum clamped
at 0. -/
def capture_radius (s : GameState) (piece : Piece) (ptype : Option PieceType) :
    Int :=
  let base_radius0 := s.rules.atomic_radius
  let base_radius1 := if base_radius0 < 0 then 0 else base_radius0
  let base_radius :=
    match ptype with
    | some pt =>
      match pt.explosion_radius with
      | some r => max 0 r
      | none => base_radius1
    | none => base_radius1
  let heat_bonus := piece.state.heat_bonus.getD 0
  max 0 (base_radius + max 0 heat_bonus)

/-- The capture/explosion/damage resolution of `try_make_move`
(lines 2110-2168, inline in the source): `piece` is the mover (already placed
on `dest`), `target` the pre-move occupant of `dest`. -/
def resolve_capture (s : GameState) (piece : Piece) (ptype : Option PieceType)
    (target : Option Piece) (dest : Pos) : GameState :=
  let capture_mode := s.rules.capture_mode
  if target.isSome ∧ capture_mode ≠ "none" then
    if capture_mode = "normal" then s
    else if capture_mode = "atomic" then
      let radius := capture_radius s piece ptype
      let s1 :=
        if 0 < radius then
          let s' := (explosionOffsets radius.toNat).foldl
            (explodeStep dest s.rules.center_survives) s
          if ¬ s.rules.center_survives then
            { s' with board := bupd s'.board dest none }
          else s'
        else s
      if s.rules.center_damages then
        { s1 with damaged := setInsert s1.damaged dest }
      else s1
    else s
  else s

/-- The in-bounds cells of the board in scan order (`for y ...: for x ...`). -/
def boardCells (s : GameState) : List Pos :=
  (List.range s.rows.toNat).flatMap (fun (y : Nat) =>
    (List.range s.cols.toNat).map (fun (x : Nat) => ((x : Int), (y : Int))))

/-- `count_pieces` of the source: `(white, black)`; any piece whose color is
not `"white"` counts as black. -/
def count_pieces (s : GameState) : Int × Int :=
  (boardCells s).foldl
    (fun (acc : Int × Int) q =>
      match s.board q with
      | none => acc
      | some p => if p.color = "white" then (acc.1 + 1, acc.2) else (acc.1, acc.2 + 1))
    (0, 0)

/-- The royal-piece count of `update_game_over` (king_capture branch):
`(white_royals, black_royals)`; pieces with an unknown or non-royal type are
skipped. -/
def count_royals (s : GameState) : Int × Int :=
  (boardCells s).foldl
    (fun (acc : Int × Int) q =>
      match s.board q with
      | none => acc
      | some p =>
        match List.lookup p.type_name s.piece_types with
        | none => acc
        | some pt =>
          if ¬ pt.is_royal then acc
          else if p.color = "white" then (acc.1 + 1, acc.2) else (acc.1, acc.2 + 1))
    (0, 0)

/-- `apply_limit_result` of the source. -/
def apply_limit_result (s : GameState) (reason_text osc_reason limit_result : String) :
    GameState × List Ev :=
  if s.game_over then (s, [])
  else if limit_result = "white" then
    ({ s with game_over := true, result_text := "1–0 (" ++ reason_text ++ ")" },
     [Ev.gameOver "1-0" (osc_reason ++ "_WHITE")])
  else if limit_result = "black" then
    ({ s with game_over := true, result_text := "0–1 (" ++ reason_text ++ ")" },
     [Ev.gameOver "0-1" (osc_reason ++ "_BLACK")])
  else
    ({ s with game_over := true, result_text := "½–½ (" ++ reason_text ++ ")" },
     [Ev.gameOver "1/2-1/2" (osc_reason ++ "_DRAW")])

/-- `check_limits_game_over` of the source; `now_ms` is
`pygame.time.get_ticks()`. -/
def check_limits_game_over (s : GameState) (now_ms : Int) : GameState × List Ev :=
  if s.game_over then (s, [])
  else
    let max_moves := s.rules.max_fullmoves
    let max_seconds := s.rules.max_seconds
    let limit_result := s.rules.limit_result
    if 0 < max_moves ∧ max_moves < s.fullmove then
      apply_limit_result s "Move limit reached" "MOVE_LIMIT" limit_result
    else if 0 < max_seconds ∧ max_seconds * 1000 ≤ now_ms - s.start_time_ms then
      apply_limit_result s "Time limit reached" "TIME_LIMIT" limit_result
    else (s, [])

/-- `update_game_over` of the source (lines 750-808). -/
def update_game_over (s : GameState) (now_ms : Int) : GameState × List Ev :=
  if s.game_over then (s, [])
  else
    let royalRes : Option (String × String × String) :=
      if s.rules.victory = "king_capture" then
        let (w, b) := count_royals s
        if w = 0 ∧ b = 0 then some ("½–½ (No royals left)", "1/2-1/2", "NO_ROYALS")
        else if w = 0 then some ("0–1 (White royal lost)", "0-1", "WHITE_ROYAL_LOST")
        else if b = 0 then some ("1–0 (Black royal lost)", "1-0", "BLACK_ROYAL_LOST")
        else none
      else none
    match royalRes with
    | some (txt, res, reason) =>
      ({ s with game_over := true, result_text := txt }, [Ev.gameOver res reason])
    | none =>
      let elimRes : Option (String × String × String) :=
        if s.rules.victory = "elimination" then
          let (w, b) := count_pieces s
          if w = 0 ∧ b = 0 then some ("½–½ (Mutual destruction)", "1/2-1/2", "MUTUAL_DESTRUCTION")
          else if w = 0 then some ("0–1 (White eliminated)", "0-1", "WHITE_ELIMINATED")
          else if b = 0 then some ("1–0 (Black eliminated)", "1-0", "BLACK_ELIMINATED")
          else none
        else none
      match elimRes with
      | some (txt, res, reason) =>
        ({ s with game_over := true, result_text := txt }, [Ev.gameOver res reason])
      | none => check_limits_game_over s now_ms

/-- The cells of an (already normalized) inclusive rectangle in loop order
(`for y in range(y1, y2+1): for x in range(x1, x2+1)`; `y` is the outer
loop). -/
def rectCells (x1 y1 x2 y2 : Int) : List Pos :=
  ((List.range (y2 - y1 + 1).toNat) ×ˢ (List.range (x2 - x1 + 1).toNat)).map
    (fun p => (x1 + (p.2 : Int), y1 + (p.1 : Int)))

/-- The recurrent source idiom "fall back to queen-like if unknown" (used by
the `add` command, `toggle_chunk` fill, and the board import, e.g. lines
1160-1168): if `tname` is not registered, create it with the queen
archetype's movement.  (With no queen archetype the source would raise; that
branch is a no-op here and unreachable in engine states.) -/
def ensure_type_queenlike (s : GameState) (tname : String) : GameState :=
  if (List.lookup tname s.piece_types).isSome then s
  else
    match List.lookup "queen" s.piece_types with
    | none => s
    | some base =>
      let newType : PieceType :=
        { name := tname
          kind := base.kind
          directions := base.directions
          max_range := base.max_range
          can_jump := base.can_jump }
      { s with piece_types := dictInsert s.piece_types tname newType }

/-- One iteration of the chunk-deactivation loop (lines 1139-1144): clear the
cell and mark it damaged. -/
def chunkOffStep (st : GameState) (q : Pos) : GameState :=
  if ¬ st.in_bounds q then st
  else { st with board := bupd st.board q none, damaged := setInsert st.damaged q }

/-- One iteration of the chunk-activation undamage loop (lines 1149-1154). -/
def chunkUndamageStep (st : GameState) (q : Pos) : GameState :=
  if ¬ st.in_bounds q then st
  else if q ∈ st.damaged then { st with damaged := setErase st.damaged q } else st

/-- One iteration of the chunk fill loop (lines 1170-1175): place a fill
piece on every empty in-bounds cell. -/
def chunkFillStep (fp : Piece) (st : GameState) (q : Pos) : GameState :=
  if ¬ st.in_bounds q then st
  else if st.board q = none then { st with board := bupd st.board q (some fp) } else st

/-- `toggle_chunk` of the source (lines 1115-1176).  In the branch that
creates an unknown fill piece type the source reads the queen archetype
without a `None` check (`base = self.piece_types.get("queen")`); were the
queen archetype absent the source would raise.  That branch is embedded as a
no-op; engine states always retain a queen archetype. -/
def toggle_chunk (s : GameState) (name : String) (mover_color : Option String) :
    GameState :=
  match List.lookup name s.chunks with
  | none => s
  | some ch =>
    let (rx1, ry1, rx2, ry2) := ch.rect
    let x1 := min rx1 rx2
    let x2 := max rx1 rx2
    let y1 := min ry1 ry2
    let y2 := max ry1 ry2
    if mover_color.isSome ∧ (ch.owner = "white" ∨ ch.owner = "black") ∧
        mover_color ≠ some ch.owner then
      -- Edge-triggered toggle blocked by ownership
      s
    else if ch.active then
      -- Turn OFF: mark damaged and clear pieces
      let s1 := (rectCells x1 y1 x2 y2).foldl chunkOffStep s
      { s1 with chunks := dictInsert s1.chunks name { ch with active := false } }
    else
      -- Turn ON: undamage region and optionally fill pieces
      let s1 := (rectCells x1 y1 x2 y2).foldl chunkUndamageStep s
      let s2 := { s1 with chunks := dictInsert s1.chunks name { ch with active := true } }
      match ch.fill with
      | none => s2
      | some fill =>
        let color := strLower (fill.color.getD "white")
        let tname := strLower (fill.type_.getD "pawn")
        let s3 := ensure_type_queenlike s2 tname
        -- fill every empty square in the chunk
        (rectCells x1 y1 x2 y2).foldl (chunkFillStep (mkPiece color tname)) s3

/-- `spawn_random_chunk_near_edge` of the source (lines 1178-1251), for a
random-mode trigger `(dist, minw, maxw, minh, maxh)`. -/
def spawn_random_chunk_near_edge (s : GameState) (pos : Pos)
    (dist minw0 maxw0 minh0 maxh0 : Int) (rng : Rng) : GameState × Rng :=
  let x := pos.1
  let y := pos.2
  let d_left := x
  let d_right := s.cols - 1 - x
  let d_bottom := y
  let d_top := s.rows - 1 - y
  let mind := min (min d_left d_right) (min d_bottom d_top)
  if dist < mind then (s, rng)
  else
    let nearest_edges :=
      (["left", "right", "bottom", "top"].zip [d_left, d_right, d_bottom, d_top]).filterMap
        (fun ed => if ed.2 = mind then some ed.1 else none)
    let (edge, rng1) := rngChoice rng nearest_edges "left"
    let minw := max 1 minw0
    let maxw := max minw maxw0
    let minh := max 1 minh0
    let maxh := max minh maxh0
    let (w, rng2) := rngRandint rng1 minw (min maxw s.cols)
    let (h, rng3) := rngRandint rng2 minh (min maxh s.rows)
    let (x1, y1, x2, y2) :=
      if edge = "left" ∨ edge = "right" then
        let y1 := max 0 (y - h / 2)
        let y2 := min (s.rows - 1) (y1 + h - 1)
        if edge = "left" then
          let x1 : Int := 0
          (x1, y1, min (s.cols - 1) (x1 + w - 1), y2)
        else
          let x2 := s.cols - 1
          (max 0 (x2 - w + 1), y1, x2, y2)
      else
        let x1 := max 0 (x - w / 2)
        let x2 := min (s.cols - 1) (x1 + w - 1)
        if edge = "bottom" then
          let y1 : Int := 0
          (x1, y1, x2, min (s.rows - 1) (y1 + h - 1))
        else
          let y2 := s.rows - 1
          (x1, max 0 (y2 - h + 1), x2, y2)
    let name := "rand_" ++ toString s.rand_chunk_counter
    ({ s with
        chunks := dictInsert s.chunks name
          { rect := (x1, y1, x2, y2), fill := none, active := true, owner := "any",
            enter_script := none, leave_script := none }
        rand_chunk_counter := s.rand_chunk_counter + 1 },
     rng3)

/-- `apply_chunk_script_override` of the source. -/
def apply_chunk_script_override (p : Piece) (scr : Option ScriptDesc) : Piece :=
  match scr with
  | none => p
  | some sd =>
    match sd.name with
    | none => p
    | some n =>
      if n = "" then p
      else if n = "none" then
        { p with state := { p.state with
            script_name_override := none
            script_param_override := none } }
      else
        { p with state := { p.state with
            script_name_override := some n
            script_param_override := some (sd.param.getD 0) } }

/-- One iteration of the `check_edge_triggers` loop (lines 1273-1294).  The
extra `alive` flag threaded through `acc` is embedding bookkeeping (not a
source variable): it records whether the mover object still occupies `pos`;
while it does, a trigger action can only keep that cell or clear it
(`toggle_chunk` never overwrites an occupied cell), so the tracked flag is
updated from cell occupancy after each trigger. -/
def edgeTrigStep (piece : Piece) (pos : Pos) (min_dist : Int)
    (acc : GameState × Bool × Rng) (trig : Trigger) : GameState × Bool × Rng :=
  let (st, al, r) := acc
  match trig with
  | Trigger.chunkT ttype dist chunk =>
    if ttype ≠ "any" ∧ ttype ≠ piece.type_name then acc
    else if dist < min_dist then acc
    else if chunk = "" then acc
    else
      let st' := toggle_chunk st chunk (some piece.color)
      (st', al && (st'.board pos).isSome, r)
  | Trigger.randomT ttype dist minw maxw minh maxh =>
    if ttype ≠ "any" ∧ ttype ≠ piece.type_name then acc
    else if dist < min_dist then acc
    else
      let (st', r') := spawn_random_chunk_near_edge st pos dist minw maxw minh maxh r
      (st', al && (st'.board pos).isSome, r')

/-- `check_edge_triggers` of the source (lines 1268-1294). -/
def check_edge_triggers (s : GameState) (piece : Piece) (pos : Pos)
    (alive : Bool) (rng : Rng) : GameState × Bool × Rng :=
  if s.edge_triggers = [] then (s, alive, rng)
  else
    let min_dist := min (min pos.1 (s.cols - 1 - pos.1))
                       (min pos.2 (s.rows - 1 - pos.2))
    s.edge_triggers.foldl (edgeTrigStep piece pos min_dist) (s, alive, rng)

/-- `apply_chunk_entry_exit` of the source (lines 1296-1322).  The source
mutates the mover object only (it never consults the board here); the
returned value is the mutated mover, which the caller writes back to the
board exactly when the object still occupies the destination cell. -/
def apply_chunk_entry_exit (s : GameState) (piece : Piece)
    (from_sq to_sq : Pos) : Piece :=
  s.chunks.foldl
    (fun p nc =>
      let ch := nc.2
      if ¬ ch.active then p
      else if (ch.owner = "white" ∨ ch.owner = "black") ∧ p.color ≠ ch.owner then p
      else
        let in_from := pos_in_rect from_sq ch.rect
        let in_to := pos_in_rect to_sq ch.rect
        let p1 :=
          if in_to ∧ ¬ in_from then
            match ch.enter_script with
            | some scr => apply_chunk_script_override p (some scr)
            | none => p
          else p
        if in_from ∧ ¬ in_to then
          match ch.leave_script with
          | some scr => apply_chunk_script_override p1 (some scr)
          | none => p1
        else p1)
    piece

/-- `try_make_move` of the source (lines 2086-2202).  Returns the new state,
the events sent over OSC, whether the move was accepted, and the remaining
random oracle. -/
def try_make_move (s : GameState) (from_sq to_sq : Pos) (rng : Rng)
    (now_ms : Int) : GameState × List Ev × Bool × Rng :=
  match s.board from_sq with
  | none => (s, [], false, rng)
  | some piece =>
    let legal := generate_moves_for_piece s from_sq.1 from_sq.2
    if to_sq ∉ legal then (s, [], false, rng)
    else
      let ptype := List.lookup piece.type_name s.piece_types
      -- Script pre-move hook
      let (new_target, rng1) := apply_script_pre_move piece ptype to_sq legal rng
      match new_target with
      | none => (s, [], false, rng1)  -- Move cancelled by script
      | some dest =>
        if ¬ s.in_bounds dest then (s, [], false, rng1)
        else
          let target := s.board dest
          let captured_name := piece_name target
          -- Move piece first
          let s1 := { s with board := bupd (bupd s.board from_sq none) dest (some piece) }
          -- Handle capture modes (explosion / damage), lines 2110-2168
          let s2 := resolve_capture s1 piece ptype target dest
          let s3 := { s2 with last_move := some (from_sq, dest) }
          -- Apply post-move script if piece survived: after the explosion the
          -- destination cell holds the mover object or nothing, so the
          -- source's identity test is the value test here.
          let step4 :=
            if s3.in_bounds dest ∧ s3.board dest = some piece then
              apply_script_post_move s3 piece ptype dest
            else (s3, piece)
          let s4 := step4.1
          let piece4 := step4.2
          let alive4 := decide (s4.board dest = some piece4)
          -- Toggle turn & fullmove
          let s5 := { s4 with
            fullmove := if s4.turn = "black" then s4.fullmove + 1 else s4.fullmove
            turn := if s4.turn = "black" then "white" else "black" }
          -- Send OSC; clear selection
          let evMove := Ev.moved from_sq dest captured_name
          let s6 := { s5 with selected_square := none, legal_targets := [] }
          -- Edge triggers
          let step7 := check_edge_triggers s6 piece4 dest alive4 rng1
          let s7 := step7.1
          let alive7 := step7.2.1
          let rng2 := step7.2.2
          -- Chunk entry/exit scripts (mutates the mover object; visible on
          -- the board iff that object still occupies dest)
          let piece8 := apply_chunk_entry_exit s7 piece4 from_sq dest
          let s8 := if alive7 then { s7 with board := bupd s7.board dest (some piece8) } else s7
          -- Game over?
          let step9 := update_game_over s8 now_ms
          (step9.1, evMove :: step9.2, true, rng2)

/-- The move-attempt entry point: `handle_click` (line 2056) rejects every
click — and hence every move attempt — once `game_over` is set; an accepted
click on a legal target calls `try_make_move`. -/
def attempt_move_click (s : GameState) (from_sq to_sq : Pos) (rng : Rng)
    (now_ms : Int) : GameState × List Ev × Bool × Rng :=
  if s.game_over then (s, [], false, rng)
  else try_make_move s from_sq to_sq rng now_ms

/-- `init_default_piece_types` of the source (lines 324-392). -/
def init_default_piece_types : List (String × PieceType) :=
  [("king",
    { name := "king"
      kind := "king"
      directions := [(1, 0), (-1, 0), (0, 1), (0, -1), (1, 1), (1, -1), (-1, 1), (-1, -1)]
      max_range := some 1
      is_royal := true }),
   ("rook",
    { name := "rook"
      kind := "rook"
      directions := [(1, 0), (-1, 0), (0, 1), (0, -1)]
      max_range := none }),
   ("bishop",
    { name := "bishop"
      kind := "bishop"
      directions := [(1, 1), (1, -1), (-1, 1), (-1, -1)]
      max_range := none }),
   ("queen",
    { name := "queen"
      kind := "queen"
      directions := [(1, 0), (-1, 0), (0, 1), (0, -1), (1, 1), (1, -1), (-1, 1), (-1, -1)]
      max_range := none }),
   ("knight",
    { name := "knight"
      kind := "knight"
      directions := [(2, 1), (1, 2), (-1, 2), (-2, 1), (-2, -1), (-1, -2), (1, -2), (2, -1)]
      max_range := some 1
      can_jump := true }),
   ("pawn",
    { name := "pawn"
      kind := "pawn"
      directions := []
      max_range := some 1 })]

/-- `place_piece` of the source (lines 436-438): out-of-bounds placements are
silently ignored. -/
def place_piece (s : GameState) (x y : Int) (piece : Piece) : GameState :=
  if 0 ≤ x ∧ x < s.cols ∧ 0 ≤ y ∧ y < s.rows then
    { s with board := bupd s.board (x, y) (some piece) }
  else s

/-- `resize_board` of the source (lines 300-314); `now_ms` re-samples the
session clock. -/
def resize_board (s : GameState) (cols rows : Int) (now_ms : Int) : GameState :=
  { s with
    cols := max 2 (min 20 cols)
    rows := max 2 (min 20 rows)
    board := fun _ => none
    selected_square := none
    legal_targets := []
    last_move := none
    turn := "white"
    fullmove := 1
    game_over := false
    result_text := ""
    damaged := []
    start_time_ms := now_ms }

/-- `clear_board` of the source. -/
def clear_board (s : GameState) : GameState :=
  { s with board := fun _ => none, damaged := [] }

/-- `setup_standard_position` of the source (lines 398-434). -/
def setup_standard_position (s : GameState) (now_ms : Int) : GameState :=
  let s0 := resize_board s 8 8 now_ms
  let pawns := (List.range 8).foldl
    (fun st x =>
      let st1 := place_piece st (x : Int) 1 (Piece.mk "white" "pawn" "P" {})
      place_piece st1 (x : Int) 6 (Piece.mk "black" "pawn" "P" {}))
    s0
  let backRank : List (Int × String × String) :=
    [(0, "rook", "R"), (7, "rook", "R"), (1, "knight", "N"), (6, "knight", "N"),
     (2, "bishop", "B"), (5, "bishop", "B"), (3, "queen", "Q"), (4, "king", "K")]
  let sPieces := backRank.foldl
    (fun st e =>
      let st1 := place_piece st e.1 0 (Piece.mk "white" e.2.1 e.2.2 {})
      place_piece st1 e.1 7 (Piece.mk "black" e.2.1 e.2.2 {}))
    pawns
  { sPieces with
    turn := "white"
    fullmove := 1
    game_over := false
    result_text := ""
    last_move := none
    selected_square := none
    legal_targets := []
    damaged := []
    start_time_ms := now_ms }

/-- The engine state right after `AtomicChessGame.__init__` (geometry, logic
and rule fields; `init_default_piece_types` + `setup_standard_position`). -/
def initial_state (now_ms : Int) : GameState :=
  let s0 : GameState :=
    { cols := 8
      rows := 8
      board := fun _ => none
      piece_types := init_default_piece_types
      turn := "white"
      fullmove := 1
      game_over := false
      result_text := ""
      damaged := []
      rules := init_default_rules
      chunks := []
      edge_triggers := []
      rand_chunk_counter := 0
      last_move := none
      selected_square := none
      legal_targets := []
      start_time_ms := now_ms }
  setup_standard_position s0 now_ms

/-! ## ConfigCodec: `export_config` / `import_config`

The configuration dict is embedded by `RawConfig`.  A scalar field read with
`int(...)` is a `JField Int`: `missing` (key absent), `val n` (a value
`int()` converts to `n`), or `invalid` (a value on which `int()` raises).
Collections whose traversal itself can raise are likewise wrapped in
`JField`.  Values the source stores without coercion are embedded at the
type the engine later reads them at. -/

/-- A field of the raw configuration dict: absent, present with a usable
value, or present with a value on which the source's conversion raises. -/
inductive JField (α : Type) where
  | missing
  | invalid
  | val (a : α)
deriving DecidableEq, Repr

/-- `JField.val`'s value, else the default. -/
def JField.getD {α : Type} : JField α → α → α
  | .val a, _ => a
  | _, d => d

/-- A raw direction entry of a piece-type dict: either not a length-2
list/tuple (skipped), or one whose `int()` conversion succeeds or raises. -/
inductive RawDir where
  | notPair
  | pair (p : JField (Int × Int))
deriving DecidableEq, Repr

/-- A raw piece-type dict (`import_config` lines 994-1004). -/
structure RawPieceType where
  kind : Option String := none
  directions : Option (List RawDir) := none
  max_range : Option (Option Int) := none
  can_jump : Option Bool := none
  explosion_radius : Option (Option Int) := none
  immune_to_explosion : Option Bool := none
  damaged_ok : Option Bool := none
  is_royal : Option Bool := none
  script_name : Option (Option String) := none
  script_param : Option Rat := none
deriving DecidableEq, Repr

/-- A raw board entry that survives the `try` of lines 1032-1039; entries on
which any lookup/conversion raises are `JField.invalid` (skipped). -/
structure RawBoardEntry where
  x : Int
  y : Int
  color : String
  type_ : String
  symbol : Option String := none
deriving DecidableEq, Repr

/-- The raw `rect` value of a chunk dict: not a length-4 list (chunk entry
dropped), or one whose four `int()` conversions succeed or raise. -/
inductive RawRect where
  | notList4
  | list4 (r : JField (Int × Int × Int × Int))
deriving DecidableEq, Repr

/-- A raw chunk dict (`import_config` lines 922-938). -/
structure RawChunk where
  rect : Option RawRect := none
  fill : Option Fill := none
  active : Option Bool := none
  owner : Option String := none
  enter_script : Option ScriptDesc := none
  leave_script : Option ScriptDesc := none
deriving DecidableEq, Repr

/-- A raw edge-trigger entry (`import_config` lines 943-989): not a dict
(skipped), or a dict of raw fields. -/
inductive RawTrigger where
  | notDict
  | dict (mode : Option String) (type_ : Option String) (dist : JField Int)
      (chunk : Option String) (minw maxw minh maxh : JField Int)
deriving DecidableEq, Repr

/-- A raw rules dict; `self.rules.update(cfg_rules)` replaces exactly the
keys present. -/
structure RawRules where
  capture_mode : Option String := none
  atomic_radius : Option Int := none
  center_damages : Option Bool := none
  center_survives : Option Bool := none
  damage_blocks_move : Option Bool := none
  victory : Option String := none
  max_fullmoves : Option Int := none
  max_seconds : Option Int := none
  limit_result : Option String := none
  osc_neighbour_radius : Option Int := none
  osc_neighbours : Option Bool := none
  osc_label : Option String := none
deriving DecidableEq, Repr

/-- The whole configuration dict. -/
structure RawConfig where
  cols : JField Int := .missing
  rows : JField Int := .missing
  turn : Option String := none
  fullmove : JField Int := .missing
  damaged : JField (List (JField (Int × Int))) := .missing
  piece_types : JField (List (String × JField RawPieceType)) := .missing
  board : JField (List (JField RawBoardEntry)) := .missing
  rules : Option RawRules := none
  chunks : Option (List (String × JField RawChunk)) := none
  edge_triggers : Option (List RawTrigger) := none
deriving DecidableEq, Repr

/-- `rules` dict as exported (`cfg["rules"] = self.rules`). -/
def rawOfRules (r : Rules) : RawRules :=
  { capture_mode := some r.capture_mode
    atomic_radius := some r.atomic_radius
    center_damages := some r.center_damages
    center_survives := some r.center_survives
    damage_blocks_move := some r.damage_blocks_move
    victory := some r.victory
    max_fullmoves := some r.max_fullmoves
    max_seconds := some r.max_seconds
    limit_result := some r.limit_result
    osc_neighbour_radius := some r.osc_neighbour_radius
    osc_neighbours := some r.osc_neighbours
    osc_label := some r.osc_label }

/-- A piece-type dict as exported (`export_config` lines 863-875). -/
def rawOfPieceType (pt : PieceType) : RawPieceType :=
  { kind := some pt.kind
    directions := some (pt.directions.map (fun d => RawDir.pair (JField.val d)))
    max_range := some pt.max_range
    can_jump := some pt.can_jump
    explosion_radius := some pt.explosion_radius
    immune_to_explosion := some pt.immune_to_explosion
    damaged_ok := some pt.damaged_ok
    is_royal := some pt.is_royal
    script_name := some pt.script_name
    script_param := some pt.script_param }

/-- A chunk dict as exported (`cfg["chunks"] = self.chunks`). -/
def rawOfChunk (c : Chunk) : RawChunk :=
  { rect := some (RawRect.list4 (JField.val c.rect))
    fill := c.fill
    active := some c.active
    owner := some c.owner
    enter_script := c.enter_script
    leave_script := c.leave_script }

/-- An edge-trigger dict as exported (`cfg["edge_triggers"] =
self.edge_triggers`): a chunk trigger is stored with keys
`{type, dist, chunk}` only; a random trigger with
`{type, dist, mode, minw, maxw, minh, maxh}`. -/
def rawOfTrigger : Trigger → RawTrigger
  | Trigger.chunkT t d c =>
      RawTrigger.dict none (some t) (JField.val d) (some c)
        JField.missing JField.missing JField.missing JField.missing
  | Trigger.randomT t d mw xw mh xh =>
      RawTrigger.dict (some "random") (some t) (JField.val d) none
        (JField.val mw) (JField.val xw) (JField.val mh) (JField.val xh)

/-- The board occupancy list of `export_config` (lines 877-887), in scan
order. -/
def boardEntries (s : GameState) : List RawBoardEntry :=
  (boardCells s).filterMap (fun q =>
    (s.board q).map (fun p =>
      { x := q.1, y := q.2, color := p.color, type_ := p.type_name,
        symbol := some p.symbol }))

/-- `export_config` of the source (lines 848-889). -/
def export_config (s : GameState) : RawConfig :=
  { cols := JField.val s.cols
    rows := JField.val s.rows
    turn := some s.turn
    fullmove := JField.val s.fullmove
    damaged := JField.val (s.damaged.map JField.val)
    piece_types := JField.val (s.piece_types.map (fun e => (e.1, JField.val (rawOfPieceType e.2))))
    board := JField.val ((boardEntries s).map JField.val)
    rules := some (rawOfRules s.rules)
    chunks := some (s.chunks.map (fun e => (e.1, JField.val (rawOfChunk e.2))))
    edge_triggers := some (s.edge_triggers.map rawOfTrigger) }

/-- `self.rules.update(cfg_rules)` field-by-field. -/
def updateRules (r : Rules) (raw : RawRules) : Rules :=
  { capture_mode := raw.capture_mode.getD r.capture_mode
    atomic_radius := raw.atomic_radius.getD r.atomic_radius
    center_damages := raw.center_damages.getD r.center_damages
    center_survives := raw.center_survives.getD r.center_survives
    damage_blocks_move := raw.damage_blocks_move.getD r.damage_blocks_move
    victory := raw.victory.getD r.victory
    max_fullmoves := raw.max_fullmoves.getD r.max_fullmoves
    max_seconds := raw.max_seconds.getD r.max_seconds
    limit_result := raw.limit_result.getD r.limit_result
    osc_neighbour_radius := raw.osc_neighbour_radius.getD r.osc_neighbour_radius
    osc_neighbours := raw.osc_neighbours.getD r.osc_neighbours
    osc_label := raw.osc_label.getD r.osc_label }

/-- The chunk-import loop (lines 919-938); an `int()` failure on a rect
coordinate raises, aborting the import with the chunks inserted so far. -/
def importChunks (s : GameState) : List (String × JField RawChunk) →
    GameState × Option String
  | [] => (s, none)
  | (name, jc) :: rest =>
    match jc with
    | JField.missing => importChunks s rest
    | JField.invalid => (s, some "chunk data is not a dict")
    | JField.val rc =>
      match rc.rect with
      | none => importChunks s rest
      | some RawRect.notList4 => importChunks s rest
      | some (RawRect.list4 JField.missing) => importChunks s rest
      | some (RawRect.list4 JField.invalid) =>
          (s, some "invalid literal for int(): chunk rect")
      | some (RawRect.list4 (JField.val r)) =>
        let ow := rc.owner.getD "any"
        let ch : Chunk :=
          { rect := r
            fill := rc.fill
            active := rc.active.getD false
            owner := if ow = "white" ∨ ow = "black" ∨ ow = "any" then ow else "any"
            enter_script := rc.enter_script
            leave_script := rc.leave_script }
        importChunks { s with chunks := dictInsert s.chunks name ch } rest

/-- The edge-trigger import loop (lines 940-989); in the chunk branch the
`dist` conversion is not wrapped in `try`, so an invalid value raises. -/
def importTrigs (s : GameState) : List RawTrigger → GameState × Option String
  | [] => (s, none)
  | RawTrigger.notDict :: rest => importTrigs s rest
  | RawTrigger.dict mode type_ dist chunk minw maxw minh maxh :: rest =>
    if mode.getD "chunk" = "random" then
      let trig := Trigger.randomT (type_.getD "any") (max 0 (dist.getD 0))
        (minw.getD 1) (maxw.getD s.cols) (minh.getD 1) (maxh.getD s.rows)
      importTrigs { s with edge_triggers := s.edge_triggers ++ [trig] } rest
    else
      match dist with
      | JField.invalid => (s, some "invalid literal for int(): trigger dist")
      | d =>
        match chunk with
        | none => importTrigs s rest
        | some c =>
          if c = "" then importTrigs s rest
          else
            let trig := Trigger.chunkT (type_.getD "any") (max 0 (d.getD 0)) c
            importTrigs { s with edge_triggers := s.edge_triggers ++ [trig] } rest

/-- The direction-list conversion inside the piece-type import loop
(lines 1006-1009); `none` means an `int()` conversion raised. -/
def importDirs : List RawDir → Option (List (Int × Int))
  | [] => some []
  | RawDir.notPair :: rest => importDirs rest
  | RawDir.pair JField.missing :: rest => importDirs rest
  | RawDir.pair JField.invalid :: _ => none
  | RawDir.pair (JField.val d) :: rest =>
    match importDirs rest with
    | none => none
    | some l => some (d :: l)

/-- The piece-type import loop (lines 993-1023). -/
def importPieceTypes (s : GameState) : List (String × JField RawPieceType) →
    GameState × Option String
  | [] => (s, none)
  | (name, jd) :: rest =>
    match jd with
    | JField.missing => importPieceTypes s rest
    | JField.invalid => (s, some "piece type data is not a dict")
    | JField.val data =>
      match importDirs (data.directions.getD []) with
      | none => (s, some "invalid literal for int(): piece type direction")
      | some dirs =>
        let pt : PieceType :=
          { name := name
            kind := data.kind.getD "custom"
            directions := dirs
            max_range := data.max_range.getD (some 1)
            can_jump := data.can_jump.getD false
            explosion_radius := data.explosion_radius.getD none
            immune_to_explosion := data.immune_to_explosion.getD false
            damaged_ok := data.damaged_ok.getD false
            is_royal := data.is_royal.getD false
            script_name := data.script_name.getD none
            script_param := data.script_param.getD 0 }
        importPieceTypes { s with piece_types := dictInsert s.piece_types name pt } rest

/-- The board import loop (lines 1031-1053); every entry is wrapped in its
own `try`, so a bad entry is skipped, never fatal.  An entry with an unknown
piece type creates that type queen-like (the queen archetype is always
present at this point, line 1026 having restored the defaults otherwise). -/
def importBoardEntries (s : GameState) : List (JField RawBoardEntry) → GameState
  | [] => s
  | JField.missing :: rest => importBoardEntries s rest
  | JField.invalid :: rest => importBoardEntries s rest
  | JField.val e :: rest =>
    if e.symbol = none ∧ e.type_ = "" then
      importBoardEntries s rest  -- `tname[0]` raises on "" inside the `try`
    else
      let symbol := e.symbol.getD (strUpper (String.mk (e.type_.data.take 1)))
      let s1 := ensure_type_queenlike s e.type_
      let newPiece : Piece := { color := e.color, type_name := e.type_, symbol := symbol }
      let s2 :=
        if 0 ≤ e.x ∧ e.x < s1.cols ∧ 0 ≤ e.y ∧ e.y < s1.rows then
          { s1 with board := bupd s1.board (e.x, e.y) (some newPiece) }
        else s1
      importBoardEntries s2 rest

/-- The damaged-squares import loop (lines 1055-1064); per-entry `try`, so a
bad entry is skipped. -/
def importDamaged (s : GameState) : List (JField (Int × Int)) → GameState
  | [] => s
  | JField.missing :: rest => importDamaged s rest
  | JField.invalid :: rest => importDamaged s rest
  | JField.val d :: rest =>
    let s1 :=
      if 0 ≤ d.1 ∧ d.1 < s.cols ∧ 0 ≤ d.2 ∧ d.2 < s.rows then
        { s with damaged := setInsert s.damaged d }
      else s
    importDamaged s1 rest

/-- `import_config` of the source (lines 891-1064), embedded with the same
statement order and the same uncaught-exception points.  On an uncaught
exception the function returns the state as mutated so far together with the
error (the caller `load_config_from_file` catches the exception and keeps
that state). -/
def import_config (s0 : GameState) (cfg : RawConfig) (now_ms : Int) :
    GameState × Option String :=
  let cr : Int × Int :=
    match cfg.cols, cfg.rows with
    | JField.invalid, _ => (8, 8)
    | _, JField.invalid => (8, 8)
    | c, r => (c.getD 8, r.getD 8)
  let s1 := { s0 with
    cols := max 2 (min 20 cr.1)
    rows := max 2 (min 20 cr.2) }
  let s2 := { s1 with turn := cfg.turn.getD "white" }
  match cfg.fullmove with
  | JField.invalid => (s2, some "invalid literal for int(): fullmove")
  | fm =>
    let s3 := { s2 with
      fullmove := fm.getD 1
      game_over := false
      result_text := ""
      last_move := none
      selected_square := none
      legal_targets := []
      start_time_ms := now_ms }
    -- Rules
    let s4 := { s3 with rules :=
      match cfg.rules with
      | some raw => updateRules init_default_rules raw
      | none => init_default_rules }
    -- Chunks & edge triggers
    let s5 := { s4 with chunks := [] }
    match importChunks s5 (cfg.chunks.getD []) with
    | (sc, some e) => (sc, some e)
    | (s6, none) =>
      let s7 := { s6 with edge_triggers := [] }
      match importTrigs s7 (cfg.edge_triggers.getD []) with
      | (st, some e) => (st, some e)
      | (s8, none) =>
        -- Piece types
        let s9 := { s8 with piece_types := [] }
        match cfg.piece_types with
        | JField.invalid => (s9, some "piece_types is not a dict")
        | pts =>
          match importPieceTypes s9 (pts.getD []) with
          | (sp, some e) => (sp, some e)
          | (s10, none) =>
            -- Ensure standard archetypes exist at the minimum
            let s11 :=
              if (List.lookup "king" s10.piece_types).isNone ∨
                  (List.lookup "queen" s10.piece_types).isNone then
                { s10 with piece_types := init_default_piece_types }
              else s10
            -- Board
            let s12 := { s11 with board := fun _ => none }
            match cfg.board with
            | JField.invalid => (s12, some "board is not a list")
            | bd =>
              let s13 := importBoardEntries s12 (bd.getD [])
              -- Damaged squares
              let s14 := { s13 with damaged := [] }
              match cfg.damaged with
              | JField.invalid => (s14, some "damaged is not a list")
              | dm => (importDamaged s14 (dm.getD []), none)

/-- The piece rebuilt by one board-import entry (`import_config`
lines 1040-1047): color/type/symbol from the entry, fresh runtime state. -/
def importedPiece (e : RawBoardEntry) : Piece :=
  { color := e.color, type_name := e.type_,
    symbol := e.symbol.getD (strUpper (String.mk (e.type_.data.take 1))) }

/-! ## Auxiliary notions used by the theorems -/

/-- Chebyshev distance between two squares. -/
def cheb (a b : Pos) : Int := max |a.1 - b.1| |a.2 - b.2|

/-- Whether a piece's type is registered explosion-immune (the victim check
of the explosion loop, lines 2157-2159). -/
def immune_lookup (s : GameState) (v : Piece) : Bool :=
  match List.lookup v.type_name s.piece_types with
  | some vt => vt.immune_to_explosion
  | none => false

/-- What a cell holds after the explosion loop has processed it, phrased on
the pre-explosion board: out-of-bounds cells and (when `cs`, i.e.
`center_survives`) the center are untouched, otherwise any non-immune
occupant is removed. -/
def explodedCell (s : GameState) (center : Pos) (cs : Bool) (q : Pos) :
    Option Piece :=
  if ¬ s.in_bounds q then s.board q
  else if cs ∧ q = center then s.board q
  else
    match s.board q with
    | none => none
    | some v => if immune_lookup s v then some v else none

/-- The post-acceptance tail of `try_make_move` (everything from the board
mutation on), with the phases in the source's order:
board move → capture/explosion/damage → post-move script → (turn, OSC,
selection) → edge triggers → chunk enter/leave → win check. -/
def phases_code_order (s : GameState) (piece : Piece) (ptype : Option PieceType)
    (from_sq dest : Pos) (rng1 : Rng) (now_ms : Int) :
    GameState × List Ev × Bool × Rng :=
  let target := s.board dest
  let captured_name := piece_name target
  let s1 := { s with board := bupd (bupd s.board from_sq none) dest (some piece) }
  let s2 := resolve_capture s1 piece ptype target dest
  let s3 := { s2 with last_move := some (from_sq, dest) }
  let step4 :=
    if s3.in_bounds dest ∧ s3.board dest = some piece then
      apply_script_post_move s3 piece ptype dest
    else (s3, piece)
  let s4 := step4.1
  let piece4 := step4.2
  let alive4 := decide (s4.board dest = some piece4)
  let s5 := { s4 with
    fullmove := if s4.turn = "black" then s4.fullmove + 1 else s4.fullmove
    turn := if s4.turn = "black" then "white" else "black" }
  let evMove := Ev.moved from_sq dest captured_name
  let s6 := { s5 with selected_square := none, legal_targets := [] }
  let step7 := check_edge_triggers s6 piece4 dest alive4 rng1
  let s7 := step7.1
  let alive7 := step7.2.1
  let rng2 := step7.2.2
  let piece8 := apply_chunk_entry_exit s7 piece4 from_sq dest
  let s8 := if alive7 then { s7 with board := bupd s7.board dest (some piece8) } else s7
  let step9 := update_game_over s8 now_ms
  (step9.1, evMove :: step9.2, true, rng2)

/-- The same phase functions assembled in the order the specification
states: board move → capture/explosion/damage → post-move script →
(turn, OSC, selection) → chunk enter/leave → edge triggers → win check. -/
def phases_spec_order (s : GameState) (piece : Piece) (ptype : Option PieceType)
    (from_sq dest : Pos) (rng1 : Rng) (now_ms : Int) :
    GameState × List Ev × Bool × Rng :=
  let target := s.board dest
  let captured_name := piece_name target
  let s1 := { s with board := bupd (bupd s.board from_sq none) dest (some piece) }
  let s2 := resolve_capture s1 piece ptype target dest
  let s3 := { s2 with last_move := some (from_sq, dest) }
  let step4 :=
    if s3.in_bounds dest ∧ s3.board dest = some piece then
      apply_script_post_move s3 piece ptype dest
    else (s3, piece)
  let s4 := step4.1
  let piece4 := step4.2
  let alive4 := decide (s4.board dest = some piece4)
  let s5 := { s4 with
    fullmove := if s4.turn = "black" then s4.fullmove + 1 else s4.fullmove
    turn := if s4.turn = "black" then "white" else "black" }
  let evMove := Ev.moved from_sq dest captured_name
  let s6 := { s5 with selected_square := none, legal_targets := [] }
  -- chunk enter/leave first …
  let piece7 := apply_chunk_entry_exit s6 piece4 from_sq dest
  let s7 := if alive4 then { s6 with board := bupd s6.board dest (some piece7) } else s6
  -- … then edge triggers
  let step8 := check_edge_triggers s7 piece7 dest alive4 rng1
  let s8 := step8.1
  let rng2 := step8.2.2
  let step9 := update_game_over s8 now_ms
  (step9.1, evMove :: step9.2, true, rng2)

/-- Iterated completed moves of a single piece, seen by the ScriptEngine:
each step performs the board mutation of `try_make_move` (lift the piece off
its current square, set it down on the next destination) followed by the
post-move script hook, exactly as the accepted-move path does for a move
that triggers no capture, explosion, or chunk/edge reaction. -/
def scriptMoveSeq (s : GameState) (cur : Pos) (p : Piece) : List Pos → GameState
  | [] => s
  | t :: rest =>
    let s1 := { s with board := bupd (bupd s.board cur none) t (some p) }
    let step := apply_script_post_move s1 p (List.lookup p.type_name s1.piece_types) t
    scriptMoveSeq step.1 t step.2 rest

/-- A piece with its decay countdown set to `l` (the state of a decaying
piece after some of its moves). -/
def pieceWithDecay (p : Piece) (l : Int) : Piece :=
  { p with state := { p.state with decay_left := some l } }

/-- Structural well-formedness of a trigger, as `import_config` and the
`edge add` / `edge random` commands establish it. -/
def trigWF : Trigger → Prop
  | Trigger.chunkT _ d c => 0 ≤ d ∧ c ≠ ""
  | Trigger.randomT _ d _ _ _ _ => 0 ≤ d

instance (t : Trigger) : Decidable (trigWF t) := by
  rcases t with ⟨ty, d, c⟩ | ⟨ty, d, a, b, e, f⟩ <;> dsimp only [trigWF] <;>
    infer_instance

/-- Structural well-formedness of an engine state: the invariants stated in
the specification's data model (board dimensions in `[2,20]`, damaged squares
in bounds, every occupied cell's piece type registered, chunk owners valid)
together with the dictionary/set representation invariants and the presence
of the king/queen archetypes.  `setup_standard_position` establishes it and
every engine operation preserves it. -/
def WF (s : GameState) : Prop :=
  2 ≤ s.cols ∧ s.cols ≤ 20 ∧ 2 ≤ s.rows ∧ s.rows ≤ 20 ∧
  s.damaged.Nodup ∧
  (∀ q ∈ s.damaged, 0 ≤ q.1 ∧ q.1 < s.cols ∧ 0 ≤ q.2 ∧ q.2 < s.rows) ∧
  (∀ e ∈ s.chunks, e.2.owner = "white" ∨ e.2.owner = "black" ∨ e.2.owner = "any") ∧
  (s.chunks.map Prod.fst).Nodup ∧
  (∀ t ∈ s.edge_triggers, trigWF t) ∧
  (∀ e ∈ s.piece_types, e.2.name = e.1) ∧
  (s.piece_types.map Prod.fst).Nodup ∧
  (List.lookup "king" s.piece_types).isSome ∧
  (List.lookup "queen" s.piece_types).isSome ∧
  (∀ e ∈ boardEntries s, (List.lookup e.type_ s.piece_types).isSome)

instance (s : GameState) : Decidable (WF s) := by
  unfold WF
  infer_instance

/-- A minimal concrete engine state used to witness theorems below. -/
def tinyState : GameState :=
  { cols := 2
    rows := 2
    board := fun _ => none
    piece_types := init_default_piece_types
    turn := "white"
    fullmove := 1
    game_over := false
    result_text := ""
    damaged := []
    rules := init_default_rules
    chunks := []
    edge_triggers := []
    rand_chunk_counter := 0
    last_move := none
    selected_square := none
    legal_targets := []
    start_time_ms := 0 }

/-- A concrete finished game (game over already recorded). -/
def tinyOverState : GameState :=
  { tinyState with game_over := true, result_text := "1–0 (Black eliminated)" }

/-- A concrete post-move position: a white queen has just landed on `(1, 1)`
of a 2×2 board, where a black pawn stood. -/
def c1State : GameState :=
  { tinyState with board := bupd (fun _ => none) (1, 1) (some (mkPiece "white" "queen")) }

/-- The queen archetype value (as in `init_default_piece_types`). -/
def c1QueenType : PieceType :=
  { name := "queen"
    kind := "queen"
    directions := [(1, 0), (-1, 0), (0, 1), (0, -1), (1, 1), (1, -1), (-1, 1), (-1, -1)]
    max_range := none }

def c8Piece : Piece :=
  { color := "white", type_name := "pawn", symbol := "P",
    state := { script_name_override := some "decay", script_param_override := some 2 } }

/-- A 2×2 board with a single white rook at the origin, for witnessing the
move-generator theorem. -/
def c2State : GameState :=
  { tinyState with board := bupd (fun _ => none) (0, 0) (some (mkPiece "white" "rook")) }

/-- The rook archetype value (as in `init_default_piece_types`). -/
def c2RookType : PieceType :=
  { name := "rook", kind := "rook",
    directions := [(1, 0), (-1, 0), (0, 1), (0, -1)], max_range := none }

/-- Membership of a square in the normalized rectangle of a chunk, as computed
by the `x1, x2 = min/max` normalization at the top of `toggle_chunk`. -/
def inNormRect (rect : Int × Int × Int × Int) (q : Pos) : Prop :=
  min rect.1 rect.2.2.1 ≤ q.1 ∧ q.1 ≤ max rect.1 rect.2.2.1 ∧
  min rect.2.1 rect.2.2.2 ≤ q.2 ∧ q.2 ≤ max rect.2.1 rect.2.2.2

instance (rect : Int × Int × Int × Int) (q : Pos) :
    Decidable (inNormRect rect q) := by
  unfold inNormRect
  infer_instance

/-- An active chunk on the left column of a 2×2 board whose leave script
marks the departing piece with the `heat` script override. -/
def c3Chunk : Chunk :=
  { rect := (0, 0, 0, 1), active := true, owner := "any",
    leave_script := some { name := some "heat", param := some 1 } }

/-- A 2×2 board with a white rook at the origin inside chunk `z`, and an
edge trigger that toggles `z` whenever a piece lands on the board edge. -/
def c3State : GameState :=
  { tinyState with
    board := bupd (fun _ => none) (0, 0) (some (mkPiece "white" "rook"))
    chunks := [("z", c3Chunk)]
    edge_triggers := [Trigger.chunkT "any" 0 "z"] }

/-- A small well-formed state exercising every export component: a king on
the board, a damaged square, a chunk and an edge trigger. -/
def c4State : GameState :=
  { tinyState with
    board := bupd (fun _ => none) (0, 0) (some (mkPiece "white" "king"))
    damaged := [(1, 1)]
    chunks := [("z", c3Chunk)]
    edge_triggers := [Trigger.chunkT "any" 0 "z"] }

/-- A 5×5 game in progress (black to move, fullmove 7, a king on the board),
about to load a configuration file. -/
def c5OldState : GameState :=
  { tinyState with
    cols := 5
    rows := 5
    turn := "black"
    fullmove := 7
    board := bupd (fun _ => none) (0, 0) (some (mkPiece "white" "king")) }

/-- A configuration dict whose `fullmove` value is not convertible by `int()`
(for instance `{"cols": 3, "rows": 3, "fullmove": "abc"}`). -/
def c5BadCfg : RawConfig :=
  { cols := JField.val 3, rows := JField.val 3, fullmove := JField.invalid }

/-- The fill descriptor of the Scenario-B chunk: white pawns. -/
def c7Fill : Fill := { color := some "white", type_ := some "pawn" }

/-- An inactive chunk covering the whole 2×2 board, with a white-pawn fill. -/
def c7Chunk : Chunk :=
  { rect := (0, 0, 1, 1), fill := some c7Fill, active := false, owner := "any" }

/-- A 2×2 board carrying the inactive chunk `z1` and one damaged square. -/
def c7State : GameState :=
  { tinyState with chunks := [("z1", c7Chunk)], damaged := [(0, 0)] }

/-! ## Theorems -/

/-- C10: for every coordinate `(x, y)` outside the current board bounds and
every piece value, `place_piece` returns without error and leaves the board
grid, the damaged set, and all other engine state unchanged (out-of-bounds
placement is a silent no-op). -/
theorem C10_place_piece_out_of_bounds_noop (s : GameState) (x y : Int) (p : Piece)
    (h : ¬ (0 ≤ x ∧ x < s.cols ∧ 0 ≤ y ∧ y < s.rows)) :
    place_piece s x y p = s := by
  simp only [place_piece, if_neg h]

/-- Witness for C10 at a concrete out-of-bounds coordinate. -/
theorem C10_witness :
    (¬ (0 ≤ (-1 : Int) ∧ (-1 : Int) < tinyState.cols ∧ 0 ≤ (0 : Int) ∧
        (0 : Int) < tinyState.rows)) ∧
    place_piece tinyState (-1) 0 (mkPiece "white" "pawn") = tinyState :=
  ⟨by decide, C10_place_piece_out_of_bounds_noop tinyState (-1) 0
      (mkPiece "white" "pawn") (by decide)⟩

/-- C6: once the game-over result is set it is never overwritten: a later
win-condition evaluation (`update_game_over`, and the per-tick
`check_limits_game_over`) leaves `game_over` and the result text unchanged
and emits no further GameOver event, and a later move attempt (a click once
`game_over` is set, `handle_click` line 2056) is rejected without any state
mutation. -/
theorem C6_game_over_sticky (s : GameState) (now_ms : Int) (a b : Pos)
    (rng : Rng) (h : s.game_over = true) :
    update_game_over s now_ms = (s, []) ∧
    check_limits_game_over s now_ms = (s, []) ∧
    attempt_move_click s a b rng now_ms = (s, [], false, rng) := by
  refine ⟨?_, ?_, ?_⟩ <;>
    simp [update_game_over, check_limits_game_over, attempt_move_click, h]

/-- Witness for C6 on a concrete finished game. -/
theorem C6_witness :
    tinyOverState.game_over = true ∧
    (update_game_over tinyOverState 5 = (tinyOverState, []) ∧
     check_limits_game_over tinyOverState 5 = (tinyOverState, []) ∧
     attempt_move_click tinyOverState (0, 0) (1, 1) {} 5 = (tinyOverState, [], false, {})) :=
  ⟨rfl, C6_game_over_sticky tinyOverState 5 (0, 0) (1, 1) {} rfl⟩

/-! ### Explosion resolution (C1) -/

theorem explodeStep_cases (center : Pos) (cs : Bool) (st : GameState)
    (d : Int × Int) :
    explodeStep center cs st d = st ∨
    explodeStep center cs st d =
      { st with board := bupd st.board (center.1 + d.1, center.2 + d.2) none } := by
  simp only [explodeStep]
  split_ifs with h1 h2
  · exact Or.inl rfl
  · rcases hb : st.board (center.1 + d.1, center.2 + d.2) with _ | v
    · exact Or.inl rfl
    · dsimp only
      rcases hv : List.lookup v.type_name st.piece_types with _ | vt
      · exact Or.inr rfl
      · by_cases hi : vt.immune_to_explosion
        · simp [hi]
        · simp [hi]
  · exact Or.inl rfl
theorem explodeStep_cols (center : Pos) (cs : Bool) (st : GameState)
    (d : Int × Int) : (explodeStep center cs st d).cols = st.cols := by
  rcases explodeStep_cases center cs st d with h | h <;> rw [h]

theorem explodeStep_rows (center : Pos) (cs : Bool) (st : GameState)
    (d : Int × Int) : (explodeStep center cs st d).rows = st.rows := by
  rcases explodeStep_cases center cs st d with h | h <;> rw [h]

theorem explodeStep_piece_types (center : Pos) (cs : Bool) (st : GameState)
    (d : Int × Int) : (explodeStep center cs st d).piece_types = st.piece_types := by
  rcases explodeStep_cases center cs st d with h | h <;> rw [h]

theorem explodeStep_damaged (center : Pos) (cs : Bool) (st : GameState)
    (d : Int × Int) : (explodeStep center cs st d).damaged = st.damaged := by
  rcases explodeStep_cases center cs st d with h | h <;> rw [h]

theorem explodeStep_board_ne (center : Pos) (cs : Bool) (st : GameState)
    (d : Int × Int) (q : Pos) (h : q ≠ (center.1 + d.1, center.2 + d.2)) :
    (explodeStep center cs st d).board q = st.board q := by
  rcases explodeStep_cases center cs st d with hc | hc <;> rw [hc]
  simp [bupd, h]

theorem explodeStep_board_self (center : Pos) (cs : Bool) (st : GameState)
    (d : Int × Int) :
    (explodeStep center cs st d).board (center.1 + d.1, center.2 + d.2) =
      explodedCell st center cs (center.1 + d.1, center.2 + d.2) := by
  simp only [explodeStep, explodedCell]
  split_ifs with h1 h2
  · rfl
  · rcases hb : st.board (center.1 + d.1, center.2 + d.2) with _ | v
    · exact hb
    · dsimp only [immune_lookup]
      rcases hv : List.lookup v.type_name st.piece_types with _ | vt
      · simp [bupd]
      · by_cases hi : vt.immune_to_explosion
        · simp [hi]
          exact hb
        · simp [hi, bupd]
  · rfl
theorem explodedCell_congr (st st' : GameState) (center : Pos) (cs : Bool)
    (q : Pos) (hc : st'.cols = st.cols) (hr : st'.rows = st.rows)
    (hpt : st'.piece_types = st.piece_types) (hb : st'.board q = st.board q) :
    explodedCell st' center cs q = explodedCell st center cs q := by
  unfold explodedCell immune_lookup GameState.in_bounds
  rw [hc, hr, hpt, hb]

theorem explode_fold_board (center : Pos) (cs : Bool) :
    ∀ (cells : List (Int × Int)) (st : GameState) (q : Pos), cells.Nodup →
    (cells.foldl (explodeStep center cs) st).board q =
      if (q.1 - center.1, q.2 - center.2) ∈ cells then explodedCell st center cs q
      else st.board q := by
  intro cells
  induction cells with
  | nil => intro st q _; simp
  | cons d rest ih =>
    intro st q hnd
    rcases List.nodup_cons.mp hnd with ⟨hd, hrest⟩
    simp only [List.foldl_cons]
    rw [ih (explodeStep center cs st d) q hrest]
    by_cases hq : (q.1 - center.1, q.2 - center.2) = d
    · have hqn : q = (center.1 + d.1, center.2 + d.2) := by
        rcases q with ⟨qx, qy⟩
        rcases d with ⟨dx, dy⟩
        simp only [Prod.mk.injEq] at hq ⊢
        omega
      have hnot : (q.1 - center.1, q.2 - center.2) ∉ rest := hq ▸ hd
      rw [if_neg hnot, if_pos (by simp [hq])]
      rw [hqn, explodeStep_board_self]
    · have hqn : q ≠ (center.1 + d.1, center.2 + d.2) := by
        intro h
        apply hq
        rcases q with ⟨qx, qy⟩
        rcases d with ⟨dx, dy⟩
        simp only [Prod.mk.injEq] at h ⊢
        omega
      by_cases hmem : (q.1 - center.1, q.2 - center.2) ∈ rest
      · rw [if_pos hmem, if_pos (by simp [hmem])]
        exact explodedCell_congr st _ center cs q (explodeStep_cols _ _ _ _)
          (explodeStep_rows _ _ _ _) (explodeStep_piece_types _ _ _ _)
          (explodeStep_board_ne _ _ _ _ _ hqn)
      · rw [if_neg hmem, if_neg (by simp [hq, hmem])]
        exact explodeStep_board_ne _ _ _ _ _ hqn

theorem explode_fold_damaged (center : Pos) (cs : Bool)
    (cells : List (Int × Int)) (st : GameState) :
    (cells.foldl (explodeStep center cs) st).damaged = st.damaged := by
  induction cells generalizing st with
  | nil => rfl
  | cons d rest ih =>
    simp only [List.foldl_cons]
    rw [ih, explodeStep_damaged]

theorem nodup_explosionOffsets (r : Nat) : (explosionOffsets r).Nodup := by
  unfold explosionOffsets
  refine List.Nodup.map ?_ (List.Nodup.product (List.nodup_range _) (List.nodup_range _))
  intro a b hab
  rcases a with ⟨a1, a2⟩
  rcases b with ⟨b1, b2⟩
  simp only [Prod.mk.injEq] at hab ⊢
  omega

theorem mem_explosionOffsets (r : Nat) (d : Int × Int) :
    d ∈ explosionOffsets r ↔ |d.1| ≤ (r : Int) ∧ |d.2| ≤ (r : Int) := by
  unfold explosionOffsets
  simp only [List.mem_map]
  constructor
  · rintro ⟨⟨a, b⟩, hmem, rfl⟩
    rw [List.mem_product] at hmem
    simp only [List.mem_range] at hmem
    simp only [abs_le]
    omega
  · rintro ⟨h1, h2⟩
    refine ⟨((d.2 + r).toNat, (d.1 + r).toNat), ?_, ?_⟩
    · rw [List.mem_product]
      simp only [List.mem_range]
      simp only [abs_le] at h1 h2
      omega
    · rcases d with ⟨d1, d2⟩
      simp only [abs_le] at h1 h2
      simp only [Prod.mk.injEq]
      constructor <;> omega

theorem capture_radius_eq (s : GameState) (piece : Piece) (pt : PieceType)
    (R : Int)
    (hover : ∀ r, pt.explosion_radius = some r → 0 ≤ r)
    (hrad : 0 ≤ s.rules.atomic_radius)
    (hheat : 0 ≤ piece.state.heat_bonus.getD 0)
    (hR : R = pt.explosion_radius.getD s.rules.atomic_radius +
      piece.state.heat_bonus.getD 0) :
    capture_radius s piece (some pt) = R := by
  rcases hpe : pt.explosion_radius with _ | r
  · simp only [hpe, Option.getD_none] at hR
    simp only [capture_radius, hpe]
    rw [if_neg (not_lt.mpr hrad)]
    omega
  · have hr0 := hover r hpe
    simp only [hpe, Option.getD_some] at hR
    simp only [capture_radius, hpe]
    omega

theorem resolve_capture_atomic (s : GameState) (piece : Piece)
    (pt : PieceType) (tpiece : Piece) (dest : Pos)
    (hmode : s.rules.capture_mode = "atomic") :
    resolve_capture s piece (some pt) (some tpiece) dest =
      (let radius := capture_radius s piece (some pt)
       let s1 :=
        if 0 < radius then
          let sE := (explosionOffsets radius.toNat).foldl
            (explodeStep dest s.rules.center_survives) s
          if ¬ s.rules.center_survives then
            { sE with board := bupd sE.board dest none }
          else sE
        else s
       if s.rules.center_damages then
        { s1 with damaged := setInsert s1.damaged dest }
       else s1) := by
  simp only [resolve_capture, hmode]
  rw [if_pos (⟨rfl, by decide⟩ : (some tpiece).isSome = true ∧ ("atomic" : String) ≠ "none"),
    if_neg (by decide : ¬ ("atomic" : String) = "normal")]
  rw [if_pos trivial]


theorem resolve_capture_board_atomic (s : GameState) (piece : Piece)
    (pt : PieceType) (tpiece : Piece) (dest : Pos)
    (hmode : s.rules.capture_mode = "atomic")
    (hpos : 0 < capture_radius s piece (some pt)) (q : Pos) :
    (resolve_capture s piece (some pt) (some tpiece) dest).board q =
      (if ¬ s.rules.center_survives = true ∧ q = dest then none
       else ((explosionOffsets (capture_radius s piece (some pt)).toNat).foldl
         (explodeStep dest s.rules.center_survives) s).board q) := by
  rw [resolve_capture_atomic s piece pt tpiece dest hmode]
  dsimp only
  rw [if_pos hpos]
  have step : ∀ (X : GameState),
      (if s.rules.center_damages = true then
        { X with damaged := setInsert X.damaged dest } else X).board = X.board := by
    intro X
    split_ifs <;> rfl
  rw [step]
  by_cases hcs : s.rules.center_survives = true
  · rw [hcs]
    rw [if_neg (by simp : ¬ (¬ (true : Bool) = true)),
      if_neg (by simp : ¬ (¬ (true : Bool) = true ∧ q = dest))]
  · have hcs' : s.rules.center_survives = false := by
      revert hcs
      cases s.rules.center_survives <;> simp
    rw [hcs']
    rw [if_pos (by simp : ¬ (false : Bool) = true)]
    by_cases hq : q = dest
    · rw [if_pos ⟨by simp, hq⟩]
      dsimp only
      simp [bupd, hq]
    · rw [if_neg (by simp [hq] : ¬ (¬ (false : Bool) = true ∧ q = dest))]
      dsimp only
      simp [bupd, hq]


theorem resolve_capture_board_zero (s : GameState) (piece : Piece)
    (pt : PieceType) (tpiece : Piece) (dest : Pos)
    (hmode : s.rules.capture_mode = "atomic")
    (hz : ¬ 0 < capture_radius s piece (some pt)) :
    (resolve_capture s piece (some pt) (some tpiece) dest).board = s.board := by
  rw [resolve_capture_atomic s piece pt tpiece dest hmode]
  dsimp only
  rw [if_neg hz]
  split_ifs <;> rfl

theorem resolve_capture_damaged_atomic (s : GameState) (piece : Piece)
    (pt : PieceType) (tpiece : Piece) (dest : Pos)
    (hmode : s.rules.capture_mode = "atomic") :
    (resolve_capture s piece (some pt) (some tpiece) dest).damaged =
      (if s.rules.center_damages then setInsert s.damaged dest else s.damaged) := by
  rw [resolve_capture_atomic s piece pt tpiece dest hmode]
  dsimp only
  by_cases hr : 0 < capture_radius s piece (some pt)
  · rw [if_pos hr]
    by_cases hcs : ¬ s.rules.center_survives = true
    · rw [if_pos hcs]
      split_ifs <;> simp [explode_fold_damaged]
    · rw [if_neg hcs]
      split_ifs <;> simp [explode_fold_damaged]
  · rw [if_neg hr]
    split_ifs <;> rfl


/-- C1: for a capture resolved in Atomic mode (destination held an opposing
piece), the explosion radius `R` equals the mover's piece-type
explosion-radius override if set, else the global `atomic_radius`, plus the
mover's accumulated `heat_bonus`, and is never negative; if `R > 0`, every
piece within Chebyshev distance `≤ R` of the destination is removed except
explosion-immune types and — when `center_survives` — the destination square
itself, while with `center_survives` off the destination is cleared (the
mover removed) as well; and when `center_damages` the destination is added
to the damaged set regardless of the radius.  The non-negativity hypotheses
on the override, the global radius and the heat bonus are the invariants the
engine maintains for these quantities (the `ptype explode` and
`rule atomic_radius` commands clamp at 0, and `heat_bonus` only ever counts
up from 0). -/
theorem C1_atomic_capture_resolution
    (s : GameState) (piece : Piece) (pt : PieceType) (tpiece : Piece)
    (dest : Pos) (R : Int)
    (hmode : s.rules.capture_mode = "atomic")
    (hopp : tpiece.color ≠ piece.color)
    (hdest : s.in_bounds dest = true)
    (hover : ∀ r, pt.explosion_radius = some r → 0 ≤ r)
    (hrad : 0 ≤ s.rules.atomic_radius)
    (hheat : 0 ≤ piece.state.heat_bonus.getD 0)
    (hR : R = pt.explosion_radius.getD s.rules.atomic_radius +
      piece.state.heat_bonus.getD 0) :
    0 ≤ R ∧
    (0 < R → ∀ q : Pos,
      (resolve_capture s piece (some pt) (some tpiece) dest).board q =
        if s.in_bounds q ∧ cheb q dest ≤ R then
          if q = dest then (if s.rules.center_survives then s.board q else none)
          else
            match s.board q with
            | none => none
            | some v => if immune_lookup s v then some v else none
        else s.board q) ∧
    (R = 0 → (resolve_capture s piece (some pt) (some tpiece) dest).board = s.board) ∧
    (resolve_capture s piece (some pt) (some tpiece) dest).damaged =
      (if s.rules.center_damages then setInsert s.damaged dest else s.damaged) := by
  have hcr := capture_radius_eq s piece pt R hover hrad hheat hR
  have hR0 : 0 ≤ R := by
    rw [← hcr]
    unfold capture_radius
    exact le_max_left _ _
  refine ⟨hR0, ?_, ?_, ?_⟩
  · intro hpos q
    have hposc : 0 < capture_radius s piece (some pt) := by rw [hcr]; exact hpos
    rw [resolve_capture_board_atomic s piece pt tpiece dest hmode hposc q]
    rw [explode_fold_board dest s.rules.center_survives _ s q (nodup_explosionOffsets _)]
    rw [hcr]
    have hmem : ((q.1 - dest.1, q.2 - dest.2) ∈ explosionOffsets R.toNat) ↔
        cheb q dest ≤ R := by
      rw [mem_explosionOffsets, Int.toNat_of_nonneg hR0]
      unfold cheb
      exact max_le_iff.symm
    by_cases hq : q = dest
    · subst hq
      have hcheb0 : cheb q q = 0 := by simp [cheb]
      have hmemq : (q.1 - q.1, q.2 - q.2) ∈ explosionOffsets R.toNat := by
        rw [hmem, hcheb0]
        exact hR0
      by_cases hcs : s.rules.center_survives = true
      · rw [if_neg (by simp [hcs]), if_pos hmemq]
        unfold explodedCell
        rw [if_neg (by simp [hdest]), if_pos (by simp [hcs])]
        rw [if_pos ⟨hdest, by rw [hcheb0]; exact hR0⟩, if_pos rfl, if_pos hcs]
      · rw [if_pos ⟨by simp [hcs], rfl⟩]
        rw [if_pos ⟨hdest, by rw [hcheb0]; exact hR0⟩, if_pos rfl,
          if_neg (by simp [hcs])]
    · rw [if_neg (by simp [hq])]
      by_cases hcb : cheb q dest ≤ R
      · rw [if_pos (hmem.mpr hcb)]
        unfold explodedCell
        by_cases hin : s.in_bounds q = true
        · rw [if_neg (by simp [hin]), if_neg (by simp [hq]),
            if_pos ⟨hin, hcb⟩, if_neg hq]
        · rw [if_pos (by simp [hin]), if_neg (by simp [hin])]
      · rw [if_neg (fun h => hcb (hmem.mp h)), if_neg (by simp [hcb])]
  · intro h0
    have hz : ¬ 0 < capture_radius s piece (some pt) := by rw [hcr]; omega
    exact resolve_capture_board_zero s piece pt tpiece dest hmode hz
  · exact resolve_capture_damaged_atomic s piece pt tpiece dest hmode


/-- Witness for C1 at a concrete atomic capture on a 2×2 board. -/
theorem C1_witness :
    c1State.rules.capture_mode = "atomic" ∧
    (mkPiece "black" "pawn").color ≠ (mkPiece "white" "queen").color ∧
    c1State.in_bounds (1, 1) = true ∧
    (0 ≤ (1 : Int) ∧
     (0 < (1 : Int) → ∀ q : Pos,
       (resolve_capture c1State (mkPiece "white" "queen") (some c1QueenType)
           (some (mkPiece "black" "pawn")) (1, 1)).board q =
         if c1State.in_bounds q ∧ cheb q (1, 1) ≤ (1 : Int) then
           if q = (1, 1) then
             (if c1State.rules.center_survives then c1State.board q else none)
           else
             match c1State.board q with
             | none => none
             | some v => if immune_lookup c1State v then some v else none
         else c1State.board q) ∧
     ((1 : Int) = 0 →
       (resolve_capture c1State (mkPiece "white" "queen") (some c1QueenType)
         (some (mkPiece "black" "pawn")) (1, 1)).board = c1State.board) ∧
     (resolve_capture c1State (mkPiece "white" "queen") (some c1QueenType)
         (some (mkPiece "black" "pawn")) (1, 1)).damaged =
       (if c1State.rules.center_damages then setInsert c1State.damaged (1, 1)
        else c1State.damaged)) :=
  ⟨rfl, by decide, rfl,
    C1_atomic_capture_resolution c1State (mkPiece "white" "queen") c1QueenType
      (mkPiece "black" "pawn") (1, 1) 1 rfl (by decide) rfl
      (by intro r h; cases h) (by decide) (by decide) (by decide)⟩

theorem bupd_bupd_same (b : Pos → Option Piece) (q : Pos) (v w : Option Piece) :
    bupd (bupd b q v) q w = bupd b q w := by
  funext p
  unfold bupd
  split_ifs <;> rfl

theorem resolve_decay_stable (p : Piece) (pt : Option PieceType) (x : Option Int) :
    resolve_script_descriptor { p with state := { p.state with decay_left := x } } pt =
      resolve_script_descriptor p pt := rfl

theorem apply_post_decay (s : GameState) (p : Piece) (pt : Option PieceType)
    (t : Pos) (N : Int) (prm : Rat)
    (hres : resolve_script_descriptor p pt = (some "decay", prm))
    (hN : ratToInt prm = N) (hN1 : 1 ≤ N)
    (halive : s.board t = some p) (hin : s.in_bounds t = true) :
    apply_script_post_move s p pt t =
      (if p.state.decay_left.getD N - 1 ≤ 0 then
        ({ s with board := bupd s.board t none },
         pieceWithDecay p (p.state.decay_left.getD N - 1))
       else
        ({ s with board := bupd s.board t (some (pieceWithDecay p (p.state.decay_left.getD N - 1))) },
         pieceWithDecay p (p.state.decay_left.getD N - 1))) := by
  unfold apply_script_post_move
  rw [hres]
  dsimp only
  rw [if_pos (by decide : strLower "decay" = "decay")]
  rw [hN, if_neg (by omega : ¬ N ≤ 0)]
  rw [if_pos halive]
  by_cases hle : p.state.decay_left.getD N - 1 ≤ 0
  · rw [if_pos ⟨hle, hin, halive⟩, if_pos hle]
    rw [bupd_bupd_same]
    rfl
  · rw [if_neg (by simp [hle]), if_neg hle]
    rfl


theorem pieceWithDecay_idem (p : Piece) (a b : Int) :
    pieceWithDecay (pieceWithDecay p a) b = pieceWithDecay p b := rfl

theorem decay_run (prm : Rat) (N : Int) (hN : ratToInt prm = N) (hN1 : 1 ≤ N) :
    ∀ (ms : List Pos) (s : GameState) (cur : Pos) (p : Piece) (d : Int),
    resolve_script_descriptor p (List.lookup p.type_name s.piece_types) =
      (some "decay", prm) →
    p.state.decay_left.getD N = d → 1 ≤ d →
    (∀ t ∈ ms, s.in_bounds t = true) →
    (ms.length : Int) ≤ d →
    ∀ t, ms.getLast? = some t →
    (scriptMoveSeq s cur p ms).board t =
      (if (ms.length : Int) = d then none
       else some (pieceWithDecay p (d - ms.length))) := by
  intro ms
  induction ms with
  | nil =>
    intro s cur p d _ _ _ _ _ t ht
    cases ht
  | cons t0 rest ih =>
    intro s cur p d hres hd hd1 hin hlen t ht
    show (scriptMoveSeq _ t0 _ rest).board t = _
    have halive : ({ s with board := bupd (bupd s.board cur none) t0 (some p) } : GameState).board t0 = some p := by
      simp [bupd]
    have hin0 : ({ s with board := bupd (bupd s.board cur none) t0 (some p) } : GameState).in_bounds t0 = true :=
      hin t0 (List.mem_cons_self _ _)
    rw [apply_post_decay _ p _ t0 N prm hres hN hN1 halive hin0]
    by_cases hdeq : d = 1
    · rw [if_pos (by rw [hd]; omega)]
      have hrest : rest = [] := by
        cases rest with
        | nil => rfl
        | cons a l =>
          exfalso
          simp only [List.length_cons] at hlen
          push_cast at hlen
          omega
      subst hrest
      simp only [List.getLast?_singleton, Option.some.injEq] at ht
      subst ht
      show (bupd _ t0 none) t0 = _
      rw [if_pos (by simp; omega)]
      simp [bupd]
    · rw [if_neg (by rw [hd]; omega)]
      rcases hr : rest with _ | ⟨a, l⟩
      · subst hr
        simp only [List.getLast?_singleton, Option.some.injEq] at ht
        subst ht
        show (bupd _ t0 (some (pieceWithDecay p
          (p.state.decay_left.getD N - 1)))) t0 = _
        rw [if_neg (by simp; omega)]
        simp only [List.length_singleton, bupd, if_pos rfl]
        rw [hd]
        norm_num
      · subst hr
        have ht' : (a :: l).getLast? = some t := by
          rw [← ht, List.getLast?_cons_cons]
        rw [hd]
        refine (ih _ t0 _ (d - 1) ?_ ?_ ?_ ?_ ?_ t ht').trans ?_
        · exact hres
        · rfl
        · omega
        · intro u hu
          exact hin u (List.mem_cons_of_mem _ hu)
        · simp only [List.length_cons] at hlen ⊢
          push_cast at hlen ⊢
          omega
        · simp only [List.length_cons, pieceWithDecay_idem]
          push_cast
          split_ifs with h1 h2
          · rfl
          · omega
          · omega
          · have harg : d - 1 - ((l.length : Int) + 1) =
                d - ((l.length : Int) + 1 + 1) := by omega
            rw [harg]

/-- C8: a piece whose effective script is decay with parameter `N ≥ 1`
survives exactly `N` of its own completed moves: the internal countdown
starts at `N`, decreases by 1 on each completed move of the piece
(`apply_script_post_move`, lines 686-709), and on the completed move where it
reaches 0 the piece is removed from its destination square.  Completed moves
of the piece are modelled by `scriptMoveSeq` (the board mutation of an
accepted move followed by the post-move hook); `ms` is the sequence of
destinations and `t` the last of them. -/
theorem C8_decay_survives_exactly_N (s : GameState) (cur : Pos) (p : Piece)
    (prm : Rat) (N : Int)
    (hres : resolve_script_descriptor p (List.lookup p.type_name s.piece_types) =
      (some "decay", prm))
    (hN : ratToInt prm = N) (hN1 : 1 ≤ N)
    (hfresh : p.state.decay_left = none)
    (ms : List Pos) (hin : ∀ t ∈ ms, s.in_bounds t = true)
    (t : Pos) (ht : ms.getLast? = some t) :
    ((ms.length : Int) < N →
      (scriptMoveSeq s cur p ms).board t = some (pieceWithDecay p (N - ms.length))) ∧
    ((ms.length : Int) = N →
      (scriptMoveSeq s cur p ms).board t = none) := by
  constructor
  · intro hlt
    have h := decay_run prm N hN hN1 ms s cur p N hres (by rw [hfresh]; rfl) hN1 hin
      (by omega) t ht
    rw [h, if_neg (by omega)]
  · intro heq
    have h := decay_run prm N hN hN1 ms s cur p N hres (by rw [hfresh]; rfl) hN1 hin
      (by omega) t ht
    rw [h, if_pos heq]

/-- Witness for C8: a pawn with a `decay 2` override makes two moves on the
2×2 board and is removed exactly on the second. -/
theorem C8_witness :
    resolve_script_descriptor c8Piece (List.lookup c8Piece.type_name tinyState.piece_types) =
      (some "decay", (2 : Rat)) ∧
    ratToInt 2 = 2 ∧ (1 : Int) ≤ 2 ∧ c8Piece.state.decay_left = none ∧
    ((([(0, 0), (0, 1)] : List Pos).length : Int) < 2 →
      (scriptMoveSeq tinyState (1, 1) c8Piece [(0, 0), (0, 1)]).board (0, 1) =
        some (pieceWithDecay c8Piece (2 - ([(0, 0), (0, 1)] : List Pos).length))) ∧
    ((([(0, 0), (0, 1)] : List Pos).length : Int) = 2 →
      (scriptMoveSeq tinyState (1, 1) c8Piece [(0, 0), (0, 1)]).board (0, 1) = none) :=
  ⟨by decide, by decide, by decide, rfl,
    (C8_decay_survives_exactly_N tinyState (1, 1) c8Piece 2 2 (by decide) (by decide)
      (by decide) rfl [(0, 0), (0, 1)] (by decide) (0, 1) rfl).1,
    (C8_decay_survives_exactly_N tinyState (1, 1) c8Piece 2 2 (by decide) (by decide)
      (by decide) rfl [(0, 0), (0, 1)] (by decide) (0, 1) rfl).2⟩

theorem slideFrom_sound (s : GameState) (pt : PieceType) (color : String)
    (dx dy : Int) : ∀ (fuel : Nat) (nx ny : Int) (t : Pos),
    t ∈ slideFrom s pt color nx ny dx dy fuel →
    s.in_bounds t = true ∧
    square_blocked_by_damage s t (some pt) = false ∧
    (s.board t = none ∨ ∃ q, s.board t = some q ∧ q.color ≠ color) := by
  intro fuel
  induction fuel with
  | zero =>
    intro nx ny t ht
    cases ht
  | succ n ihn =>
    intro nx ny t ht
    unfold slideFrom at ht
    by_cases h1 : ¬ s.in_bounds (nx, ny) = true
    · rw [if_pos h1] at ht
      cases ht
    · rw [if_neg h1] at ht
      by_cases h2 : square_blocked_by_damage s (nx, ny) (some pt) = true
      · rw [if_pos h2] at ht
        cases ht
      · rw [if_neg h2] at ht
        rcases hb : s.board (nx, ny) with _ | tp
        · rw [hb] at ht
          simp only [List.mem_cons] at ht
          rcases ht with rfl | htail
          · exact ⟨by simpa using h1, by simpa using h2, Or.inl hb⟩
          · exact ihn _ _ t htail
        · rw [hb] at ht
          dsimp only at ht
          by_cases hc : tp.color ≠ color
          · rw [if_pos hc] at ht
            simp only [List.mem_singleton] at ht
            subst ht
            exact ⟨by simpa using h1, by simpa using h2, Or.inr ⟨tp, hb, hc⟩⟩
          · rw [if_neg hc] at ht
            cases ht


/-- C2: for every board state, piece-type registry, and piece standing at
`(x, y)`, every destination returned by `generate_moves_for_piece` is in
bounds, is either empty or holds a piece of the opposite color, and is never
a damage-blocked square (`square_blocked_by_damage` is false for it, i.e. it
is not a damaged square while `damage_blocks_move` is on, unless the piece's
type has `damaged_ok` set). -/
theorem C2_movegen_sound (s : GameState) (x y : Int) (piece : Piece)
    (pt : PieceType)
    (hp : s.board (x, y) = some piece)
    (hpt : List.lookup piece.type_name s.piece_types = some pt) :
    ∀ t ∈ generate_moves_for_piece s x y,
      s.in_bounds t = true ∧
      (s.board t = none ∨ ∃ q, s.board t = some q ∧ q.color ≠ piece.color) ∧
      square_blocked_by_damage s t (some pt) = false := by
  intro t ht
  unfold generate_moves_for_piece at ht
  rw [hp] at ht
  dsimp only at ht
  rw [hpt] at ht
  dsimp only at ht
  by_cases hpk : pt.kind = "pawn"
  · rw [if_pos hpk] at ht
    rw [List.mem_append] at ht
    rcases ht with hfwd | hcap
    · by_cases hc1 : s.in_bounds (x, y + (if piece.color = "white" then (1 : Int) else -1)) = true ∧
          s.board (x, y + (if piece.color = "white" then (1 : Int) else -1)) = none ∧
          ¬ square_blocked_by_damage s (x, y + (if piece.color = "white" then (1 : Int) else -1)) (some pt) = true
      · rw [if_pos hc1] at hfwd
        simp only [List.mem_cons] at hfwd
        rcases hfwd with rfl | hfwd2
        · exact ⟨hc1.1, Or.inl hc1.2.1, by simpa using hc1.2.2⟩
        · by_cases hc2 : y = (if piece.color = "white" then (1 : Int) else s.rows - 2) ∧
              s.in_bounds (x, y + 2 * (if piece.color = "white" then (1 : Int) else -1)) = true ∧
              s.board (x, y + 2 * (if piece.color = "white" then (1 : Int) else -1)) = none ∧
              ¬ square_blocked_by_damage s (x, y + 2 * (if piece.color = "white" then (1 : Int) else -1)) (some pt) = true
          · rw [if_pos hc2] at hfwd2
            simp only [List.mem_singleton] at hfwd2
            subst hfwd2
            exact ⟨hc2.2.1, Or.inl hc2.2.2.1, by simpa using hc2.2.2.2⟩
          · rw [if_neg hc2] at hfwd2
            cases hfwd2
      · rw [if_neg hc1] at hfwd
        cases hfwd
    · rw [List.mem_filterMap] at hcap
      rcases hcap with ⟨dx, _, hfd⟩
      by_cases hc3 : s.in_bounds (x + dx, y + (if piece.color = "white" then (1 : Int) else -1)) = true ∧
          ¬ square_blocked_by_damage s (x + dx, y + (if piece.color = "white" then (1 : Int) else -1)) (some pt) = true
      · rw [if_pos hc3] at hfd
        rcases hb : s.board (x + dx, y + (if piece.color = "white" then (1 : Int) else -1)) with _ | tp
        · rw [hb] at hfd
          cases hfd
        · rw [hb] at hfd
          dsimp only at hfd
          by_cases hcol : tp.color ≠ piece.color
          · rw [if_pos hcol] at hfd
            rcases hfd with ⟨rfl⟩
            exact ⟨hc3.1, Or.inr ⟨tp, hb, hcol⟩, by simpa using hc3.2⟩
          · rw [if_neg hcol] at hfd
            cases hfd
      · rw [if_neg hc3] at hfd
        cases hfd
  · rw [if_neg hpk] at ht
    by_cases hkn : pt.kind = "knight" ∨ (pt.can_jump = true ∧ pt.directions ≠ [])
    · rw [if_pos hkn] at ht
      rw [List.mem_filterMap] at ht
      rcases ht with ⟨d, _, hfd⟩
      by_cases h1 : ¬ s.in_bounds (x + d.1, y + d.2) = true
      · rw [if_pos h1] at hfd
        cases hfd
      · rw [if_neg h1] at hfd
        by_cases h2 : square_blocked_by_damage s (x + d.1, y + d.2) (some pt) = true
        · rw [if_pos h2] at hfd
          cases hfd
        · rw [if_neg h2] at hfd
          rcases hb : s.board (x + d.1, y + d.2) with _ | tp
          · rw [hb] at hfd
            rcases hfd with ⟨rfl⟩
            exact ⟨by simpa using h1, Or.inl hb, by simpa using h2⟩
          · rw [hb] at hfd
            dsimp only at hfd
            by_cases hcol : tp.color ≠ piece.color
            · rw [if_pos hcol] at hfd
              rcases hfd with ⟨rfl⟩
              exact ⟨by simpa using h1, Or.inr ⟨tp, hb, hcol⟩, by simpa using h2⟩
            · rw [if_neg hcol] at hfd
              cases hfd
    · rw [if_neg hkn] at ht
      by_cases hdirs : pt.directions = []
      · rw [if_pos hdirs] at ht
        cases ht
      · rw [if_neg hdirs] at ht
        rw [List.mem_flatMap] at ht
        rcases ht with ⟨d, _, hsl⟩
        exact (slideFrom_sound s pt piece.color d.1 d.2 _ _ _ t hsl).imp id
          (fun h => ⟨h.2, h.1⟩)


/-- Witness for C2 on a concrete rook move. -/
theorem C2_witness :
    c2State.board (0, 0) = some (mkPiece "white" "rook") ∧
    List.lookup (mkPiece "white" "rook").type_name c2State.piece_types = some c2RookType ∧
    (1, 0) ∈ generate_moves_for_piece c2State 0 0 ∧
    (c2State.in_bounds (1, 0) = true ∧
     (c2State.board (1, 0) = none ∨
      ∃ q, c2State.board (1, 0) = some q ∧ q.color ≠ (mkPiece "white" "rook").color) ∧
     square_blocked_by_damage c2State (1, 0) (some c2RookType) = false) :=
  ⟨by decide, by decide, by decide,
    C2_movegen_sound c2State 0 0 (mkPiece "white" "rook") c2RookType (by decide)
      (by decide) (1, 0) (by decide)⟩



theorem mem_setInsert (l : List Pos) (q a : Pos) :
    a ∈ setInsert l q ↔ a ∈ l ∨ a = q := by
  unfold setInsert
  split_ifs with h
  · constructor
    · exact Or.inl
    · rintro (ha | rfl)
      · exact ha
      · exact h
  · simp

theorem nodup_setInsert (l : List Pos) (q : Pos) (h : l.Nodup) :
    (setInsert l q).Nodup := by
  unfold setInsert
  split_ifs with hq
  · exact h
  · simpa [List.nodup_append] using ⟨h, hq⟩

theorem mem_setErase (l : List Pos) (q a : Pos) (h : l.Nodup) :
    a ∈ setErase l q ↔ a ∈ l ∧ a ≠ q := by
  unfold setErase
  exact h.mem_erase_iff.trans (by tauto)

theorem nodup_setErase (l : List Pos) (q : Pos) (h : l.Nodup) :
    (setErase l q).Nodup := h.erase q

theorem mem_rectCells (x1 y1 x2 y2 : Int) (q : Pos) :
    q ∈ rectCells x1 y1 x2 y2 ↔
      x1 ≤ q.1 ∧ q.1 ≤ x2 ∧ y1 ≤ q.2 ∧ q.2 ≤ y2 := by
  unfold rectCells
  simp only [List.mem_map]
  constructor
  · rintro ⟨⟨a, b⟩, hmem, rfl⟩
    rw [List.mem_product] at hmem
    simp only [List.mem_range] at hmem
    omega
  · rintro ⟨h1, h2, h3, h4⟩
    refine ⟨((q.2 - y1).toNat, (q.1 - x1).toNat), ?_, ?_⟩
    · rw [List.mem_product]
      simp only [List.mem_range]
      omega
    · rcases q with ⟨qx, qy⟩
      simp only [Prod.mk.injEq]
      constructor <;> simp <;> omega


theorem chunkOffStep_comp (st : GameState) (q : Pos) :
    (chunkOffStep st q).cols = st.cols ∧ (chunkOffStep st q).rows = st.rows ∧
    (chunkOffStep st q).chunks = st.chunks ∧
    (chunkOffStep st q).piece_types = st.piece_types := by
  unfold chunkOffStep
  split_ifs <;> exact ⟨rfl, rfl, rfl, rfl⟩

theorem off_fold_comp (cells : List Pos) (st : GameState) :
    (cells.foldl chunkOffStep st).cols = st.cols ∧
    (cells.foldl chunkOffStep st).rows = st.rows ∧
    (cells.foldl chunkOffStep st).chunks = st.chunks ∧
    (cells.foldl chunkOffStep st).piece_types = st.piece_types := by
  induction cells generalizing st with
  | nil => exact ⟨rfl, rfl, rfl, rfl⟩
  | cons c rest ih =>
    simp only [List.foldl_cons]
    rcases ih (chunkOffStep st c) with ⟨h1, h2, h3, h4⟩
    rcases chunkOffStep_comp st c with ⟨g1, g2, g3, g4⟩
    exact ⟨h1.trans g1, h2.trans g2, h3.trans g3, h4.trans g4⟩

theorem off_fold_board (cells : List Pos) (st : GameState) (q : Pos) :
    (cells.foldl chunkOffStep st).board q =
      (if q ∈ cells ∧ st.in_bounds q = true then none else st.board q) := by
  induction cells generalizing st with
  | nil => simp
  | cons c rest ih =>
    simp only [List.foldl_cons]
    rw [ih (chunkOffStep st c)]
    have hinb : (chunkOffStep st c).in_bounds q = st.in_bounds q := by
      unfold GameState.in_bounds
      rw [(chunkOffStep_comp st c).1, (chunkOffStep_comp st c).2.1]
    by_cases hq : q = c
    · subst hq
      by_cases hb : st.in_bounds q = true
      · have hstep : (chunkOffStep st q).board q = none := by
          unfold chunkOffStep
          rw [if_neg (by simp [hb])]
          simp [bupd]
        rw [hinb]
        by_cases hmem : q ∈ rest
        · rw [if_pos ⟨hmem, hb⟩, if_pos ⟨by simp, hb⟩]
        · rw [if_neg (by simp [hmem]), hstep, if_pos ⟨by simp, hb⟩]
      · have hstep : chunkOffStep st q = st := by
          unfold chunkOffStep
          rw [if_pos (by simp [hb])]
        rw [hstep, if_neg (by simp [hb]), if_neg (by simp [hb])]
    · have hstep : (chunkOffStep st c).board q = st.board q := by
        unfold chunkOffStep
        split_ifs <;> simp [bupd, hq]
      rw [hinb, hstep]
      simp [List.mem_cons, hq]


theorem off_fold_damaged (cells : List Pos) (st : GameState) (a : Pos) :
    (a ∈ (cells.foldl chunkOffStep st).damaged ↔
      a ∈ st.damaged ∨ (a ∈ cells ∧ st.in_bounds a = true)) := by
  induction cells generalizing st with
  | nil => simp
  | cons c rest ih =>
    simp only [List.foldl_cons]
    rw [ih (chunkOffStep st c)]
    have hinb : (chunkOffStep st c).in_bounds a = st.in_bounds a := by
      unfold GameState.in_bounds
      rw [(chunkOffStep_comp st c).1, (chunkOffStep_comp st c).2.1]
    rw [hinb]
    unfold chunkOffStep
    split_ifs with h
    · dsimp only
      rw [mem_setInsert]
      constructor
      · rintro ((h1 | rfl) | h2)
        · exact Or.inl h1
        · exact Or.inr ⟨List.mem_cons_self _ _, by simpa using h⟩
        · exact Or.inr ⟨List.mem_cons_of_mem _ h2.1, h2.2⟩
      · rintro (h1 | ⟨hm, hb⟩)
        · exact Or.inl (Or.inl h1)
        · rcases List.mem_cons.mp hm with rfl | hm'
          · exact Or.inl (Or.inr rfl)
          · exact Or.inr ⟨hm', hb⟩
    · constructor
      · rintro (h1 | h2)
        · exact Or.inl h1
        · exact Or.inr ⟨List.mem_cons_of_mem _ h2.1, h2.2⟩
      · rintro (h1 | ⟨hm, hb⟩)
        · exact Or.inl h1
        · rcases List.mem_cons.mp hm with rfl | hm'
          · exact absurd hb (by simpa using h)
          · exact Or.inr ⟨hm', hb⟩

theorem chunkUndamageStep_comp (st : GameState) (q : Pos) :
    (chunkUndamageStep st q).cols = st.cols ∧
    (chunkUndamageStep st q).rows = st.rows ∧
    (chunkUndamageStep st q).chunks = st.chunks ∧
    (chunkUndamageStep st q).piece_types = st.piece_types ∧
    (chunkUndamageStep st q).board = st.board := by
  unfold chunkUndamageStep
  split_ifs <;> exact ⟨rfl, rfl, rfl, rfl, rfl⟩

theorem un_fold_comp (cells : List Pos) (st : GameState) :
    (cells.foldl chunkUndamageStep st).cols = st.cols ∧
    (cells.foldl chunkUndamageStep st).rows = st.rows ∧
    (cells.foldl chunkUndamageStep st).chunks = st.chunks ∧
    (cells.foldl chunkUndamageStep st).piece_types = st.piece_types ∧
    (cells.foldl chunkUndamageStep st).board = st.board := by
  induction cells generalizing st with
  | nil => exact ⟨rfl, rfl, rfl, rfl, rfl⟩
  | cons c rest ih =>
    simp only [List.foldl_cons]
    rcases ih (chunkUndamageStep st c) with ⟨h1, h2, h3, h4, h5⟩
    rcases chunkUndamageStep_comp st c with ⟨g1, g2, g3, g4, g5⟩
    exact ⟨h1.trans g1, h2.trans g2, h3.trans g3, h4.trans g4, h5.trans g5⟩

theorem un_fold_nodup (cells : List Pos) (st : GameState)
    (h : st.damaged.Nodup) : (cells.foldl chunkUndamageStep st).damaged.Nodup := by
  induction cells generalizing st with
  | nil => exact h
  | cons c rest ih =>
    simp only [List.foldl_cons]
    refine ih (chunkUndamageStep st c) ?_
    unfold chunkUndamageStep
    split_ifs
    · exact nodup_setErase _ _ h
    · exact h
    · exact h

theorem un_fold_damaged (cells : List Pos) (st : GameState) (a : Pos)
    (hnd : st.damaged.Nodup) :
    (a ∈ (cells.foldl chunkUndamageStep st).damaged ↔
      a ∈ st.damaged ∧ ¬ (a ∈ cells ∧ st.in_bounds a = true)) := by
  induction cells generalizing st with
  | nil => simp
  | cons c rest ih =>
    simp only [List.foldl_cons]
    have hnd' : (chunkUndamageStep st c).damaged.Nodup := by
      unfold chunkUndamageStep
      split_ifs
      · exact nodup_setErase _ _ hnd
      · exact hnd
      · exact hnd
    rw [ih (chunkUndamageStep st c) hnd']
    have hinb : (chunkUndamageStep st c).in_bounds a = st.in_bounds a := by
      unfold GameState.in_bounds
      rw [(chunkUndamageStep_comp st c).1, (chunkUndamageStep_comp st c).2.1]
    rw [hinb]
    unfold chunkUndamageStep
    split_ifs with h1 h2
    · dsimp only
      rw [mem_setErase _ _ _ hnd]
      constructor
      · rintro ⟨⟨ha, hne⟩, hn⟩
        refine ⟨ha, ?_⟩
        rintro ⟨hm, hb⟩
        rcases List.mem_cons.mp hm with rfl | hm'
        · exact hne rfl
        · exact hn ⟨hm', hb⟩
      · rintro ⟨ha, hn⟩
        constructor
        · refine ⟨ha, ?_⟩
          rintro rfl
          exact hn ⟨List.mem_cons_self _ _, by simpa using h1⟩
        · rintro ⟨hm, hb⟩
          exact hn ⟨List.mem_cons_of_mem _ hm, hb⟩
    · constructor
      · rintro ⟨ha, hn⟩
        refine ⟨ha, ?_⟩
        rintro ⟨hm, hb⟩
        rcases List.mem_cons.mp hm with rfl | hm'
        · exact h2 ha
        · exact hn ⟨hm', hb⟩
      · rintro ⟨ha, hn⟩
        exact ⟨ha, fun ⟨hm, hb⟩ => hn ⟨List.mem_cons_of_mem _ hm, hb⟩⟩
    · constructor
      · rintro ⟨ha, hn⟩
        refine ⟨ha, ?_⟩
        rintro ⟨hm, hb⟩
        rcases List.mem_cons.mp hm with rfl | hm'
        · exact absurd hb (by simpa using h1)
        · exact hn ⟨hm', hb⟩
      · rintro ⟨ha, hn⟩
        exact ⟨ha, fun ⟨hm, hb⟩ => hn ⟨List.mem_cons_of_mem _ hm, hb⟩⟩


theorem chunkFillStep_comp (fp : Piece) (st : GameState) (q : Pos) :
    (chunkFillStep fp st q).cols = st.cols ∧
    (chunkFillStep fp st q).rows = st.rows ∧
    (chunkFillStep fp st q).damaged = st.damaged ∧
    (chunkFillStep fp st q).chunks = st.chunks := by
  unfold chunkFillStep
  split_ifs <;> exact ⟨rfl, rfl, rfl, rfl⟩

theorem fill_fold_comp (fp : Piece) (cells : List Pos) (st : GameState) :
    (cells.foldl (chunkFillStep fp) st).cols = st.cols ∧
    (cells.foldl (chunkFillStep fp) st).rows = st.rows ∧
    (cells.foldl (chunkFillStep fp) st).damaged = st.damaged ∧
    (cells.foldl (chunkFillStep fp) st).chunks = st.chunks := by
  induction cells generalizing st with
  | nil => exact ⟨rfl, rfl, rfl, rfl⟩
  | cons c rest ih =>
    simp only [List.foldl_cons]
    rcases ih (chunkFillStep fp st c) with ⟨h1, h2, h3, h4⟩
    rcases chunkFillStep_comp fp st c with ⟨g1, g2, g3, g4⟩
    exact ⟨h1.trans g1, h2.trans g2, h3.trans g3, h4.trans g4⟩

theorem fill_fold_board (fp : Piece) (cells : List Pos) (st : GameState) (q : Pos) :
    (cells.foldl (chunkFillStep fp) st).board q =
      (if q ∈ cells ∧ st.in_bounds q = true ∧ st.board q = none then some fp
       else st.board q) := by
  induction cells generalizing st with
  | nil => simp
  | cons c rest ih =>
    simp only [List.foldl_cons]
    rw [ih (chunkFillStep fp st c)]
    have hinb : (chunkFillStep fp st c).in_bounds q = st.in_bounds q := by
      unfold GameState.in_bounds
      rw [(chunkFillStep_comp fp st c).1, (chunkFillStep_comp fp st c).2.1]
    rw [hinb]
    by_cases hq : q = c
    · subst hq
      by_cases hb : st.in_bounds q = true
      · by_cases he : st.board q = none
        · have hstep : (chunkFillStep fp st q).board q = some fp := by
            unfold chunkFillStep
            rw [if_neg (by simp [hb]), if_pos he]
            simp [bupd]
          rw [hstep]
          by_cases hmem : q ∈ rest
          · rw [if_neg (by simp), if_pos ⟨by simp, hb, he⟩]
          · rw [if_neg (by simp), if_pos ⟨by simp, hb, he⟩]
        · have hstep : (chunkFillStep fp st q).board q = st.board q := by
            unfold chunkFillStep
            rw [if_neg (by simp [hb]), if_neg he]
          rw [hstep]
          by_cases hmem : q ∈ rest
          · rw [if_neg (by simp [he]), if_neg (by simp [he])]
          · rw [if_neg (by simp [he]), if_neg (by simp [he])]
      · have hstep : chunkFillStep fp st q = st := by
          unfold chunkFillStep
          rw [if_pos (by simp [hb])]
        rw [hstep, if_neg (by simp [hb]), if_neg (by simp [hb])]
    · have hstep : (chunkFillStep fp st c).board q = st.board q := by
        unfold chunkFillStep
        split_ifs <;> simp [bupd, hq]
      rw [hstep]
      simp [List.mem_cons, hq]



theorem ensure_type_comp (s : GameState) (tname : String) :
    (ensure_type_queenlike s tname).cols = s.cols ∧
    (ensure_type_queenlike s tname).rows = s.rows ∧
    (ensure_type_queenlike s tname).board = s.board ∧
    (ensure_type_queenlike s tname).damaged = s.damaged ∧
    (ensure_type_queenlike s tname).chunks = s.chunks := by
  unfold ensure_type_queenlike
  split_ifs
  · exact ⟨rfl, rfl, rfl, rfl, rfl⟩
  · rcases List.lookup "queen" s.piece_types with _ | base
    · exact ⟨rfl, rfl, rfl, rfl, rfl⟩
    · exact ⟨rfl, rfl, rfl, rfl, rfl⟩

theorem mem_rectCells_norm (rx1 ry1 rx2 ry2 : Int) (q : Pos) :
    q ∈ rectCells (min rx1 rx2) (min ry1 ry2) (max rx1 rx2) (max ry1 ry2) ↔
      inNormRect (rx1, ry1, rx2, ry2) q := by
  rw [mem_rectCells]
  unfold inNormRect
  tauto


theorem ensure_type_board (s : GameState) (tname : String) :
    (ensure_type_queenlike s tname).board = s.board :=
  (ensure_type_comp s tname).2.2.1

theorem ensure_type_inb (s : GameState) (tname : String) :
    (ensure_type_queenlike s tname).in_bounds = s.in_bounds := by
  funext p
  unfold GameState.in_bounds
  rw [(ensure_type_comp s tname).1, (ensure_type_comp s tname).2.1]

theorem inb_congr (s : GameState) : ∀ X : GameState, X.cols = s.cols →
    X.rows = s.rows → X.in_bounds = s.in_bounds := by
  intro X h1 h2
  funext p
  unfold GameState.in_bounds
  rw [h1, h2]

/-- C7: `toggle_chunk` characterization. A toggle carrying a mover color that
differs from the chunk's non-any owner changes no state (a toggle with no mover
color proceeds regardless of ownership, as in the other two parts).
Deactivating an active chunk clears every in-bounds cell of its normalized
rectangle of any piece and adds that cell to the damaged set. Activating an
inactive chunk removes every in-bounds rectangle cell from the damaged set and,
if a fill descriptor is present, places a new piece of the configured color and
type on every rectangle cell that is then empty. -/
theorem C7_toggle_chunk (s : GameState) (name : String) (ch : Chunk)
    (hch : List.lookup name s.chunks = some ch)
    (hnd : s.damaged.Nodup) :
    (∀ c, (ch.owner = "white" ∨ ch.owner = "black") → some c ≠ some ch.owner →
      toggle_chunk s name (some c) = s) ∧
    (ch.active = true →
      ∀ q : Pos,
        ((toggle_chunk s name none).board q =
          (if inNormRect ch.rect q ∧ s.in_bounds q = true then none else s.board q)) ∧
        (q ∈ (toggle_chunk s name none).damaged ↔
          q ∈ s.damaged ∨ (inNormRect ch.rect q ∧ s.in_bounds q = true))) ∧
    (ch.active = false →
      (∀ q : Pos,
        q ∈ (toggle_chunk s name none).damaged ↔
          q ∈ s.damaged ∧ ¬ (inNormRect ch.rect q ∧ s.in_bounds q = true)) ∧
      (ch.fill = none → (toggle_chunk s name none).board = s.board) ∧
      (∀ f, ch.fill = some f → ∀ q : Pos,
        (toggle_chunk s name none).board q =
          (if inNormRect ch.rect q ∧ s.in_bounds q = true ∧ s.board q = none then
            some (mkPiece (strLower (f.color.getD "white"))
              (strLower (f.type_.getD "pawn")))
          else s.board q))) := by
  obtain ⟨⟨rx1, ry1, rx2, ry2⟩, fl, active, owner, es, ls⟩ := ch
  refine ⟨?_, ?_, ?_⟩
  · intro c hown hneq
    unfold toggle_chunk
    rw [hch]
    dsimp only
    rw [if_pos ⟨by simp, hown, hneq⟩]
  · intro hact q
    dsimp only at hact
    subst hact
    unfold toggle_chunk
    rw [hch]
    dsimp only
    rw [if_neg (by simp), if_pos rfl]
    constructor
    · show ((rectCells _ _ _ _).foldl chunkOffStep s).board q = _
      rw [off_fold_board]
      simp only [mem_rectCells_norm]
    · show q ∈ ((rectCells _ _ _ _).foldl chunkOffStep s).damaged ↔ _
      rw [off_fold_damaged]
      simp only [mem_rectCells_norm]
  · intro hact
    dsimp only at hact
    subst hact
    unfold toggle_chunk
    rw [hch]
    dsimp only
    rw [if_neg (by simp), if_neg (by simp)]
    refine ⟨?_, ?_, ?_⟩
    · intro q
      rcases fl with _ | f
      · show q ∈ ((rectCells _ _ _ _).foldl chunkUndamageStep s).damaged ↔ _
        rw [un_fold_damaged _ _ _ hnd]
        simp only [mem_rectCells_norm]
      · dsimp only
        rw [(fill_fold_comp _ _ _).2.2.1, (ensure_type_comp _ _).2.2.2.1]
        show q ∈ ((rectCells _ _ _ _).foldl chunkUndamageStep s).damaged ↔ _
        rw [un_fold_damaged _ _ _ hnd]
        simp only [mem_rectCells_norm]
    · intro hfl
      subst hfl
      funext q
      show ((rectCells _ _ _ _).foldl chunkUndamageStep s).board q = _
      rw [(un_fold_comp _ _).2.2.2.2]
    · intro f hfl q
      subst hfl
      dsimp only
      rw [fill_fold_board, ensure_type_board, ensure_type_inb]
      dsimp only
      rw [(un_fold_comp _ _).2.2.2.2]
      simp only [GameState.in_bounds]
      dsimp only
      rw [(un_fold_comp (rectCells (min rx1 rx2) (min ry1 ry2) (max rx1 rx2)
          (max ry1 ry2)) s).1,
        (un_fold_comp (rectCells (min rx1 rx2) (min ry1 ry2) (max rx1 rx2)
          (max ry1 ry2)) s).2.1]
      simp only [mem_rectCells_norm]

/-- Witness for C7: activating the Scenario-B chunk on a concrete 2×2 board
refills `(1, 1)` with a white pawn and undamages `(0, 0)`. -/
theorem C7_witness :
    List.lookup "z1" c7State.chunks = some c7Chunk ∧
    c7State.damaged.Nodup ∧
    ((toggle_chunk c7State "z1" none).board (1, 1) =
      (if inNormRect c7Chunk.rect (1, 1) ∧ c7State.in_bounds (1, 1) = true ∧
          c7State.board (1, 1) = none then
        some (mkPiece (strLower (c7Fill.color.getD "white"))
          (strLower (c7Fill.type_.getD "pawn")))
      else c7State.board (1, 1))) ∧
    ((0, 0) ∈ (toggle_chunk c7State "z1" none).damaged ↔
      (0, 0) ∈ c7State.damaged ∧
        ¬ (inNormRect c7Chunk.rect (0, 0) ∧ c7State.in_bounds (0, 0) = true)) :=
  ⟨by decide, by decide,
    ((C7_toggle_chunk c7State "z1" c7Chunk (by decide) (by decide)).2.2
      rfl).2.2 c7Fill rfl (1, 1),
    ((C7_toggle_chunk c7State "z1" c7Chunk (by decide) (by decide)).2.2
      rfl).1 (0, 0)⟩

/-- C3 (amended): for every accepted move — mover present, destination in the
legal set, pre-move script yielding an in-bounds destination — `try_make_move`
applies its phases in exactly this order: board mutation (move), then
explosion/damage resolution, then the mover's post-move script, then
edge-trigger reactions, then chunk enter/leave processing, then the
win-condition check.  (The source runs edge triggers BEFORE chunk enter/exit,
lines 2194 and 2197, not after as the specification states; see
`C3_counterexample`.) -/
theorem C3_phase_order (s : GameState) (from_sq to_sq : Pos) (rng : Rng)
    (now_ms : Int) (piece : Piece) (dest : Pos) (rng1 : Rng)
    (hb : s.board from_sq = some piece)
    (hlegal : to_sq ∈ generate_moves_for_piece s from_sq.1 from_sq.2)
    (hpre : apply_script_pre_move piece (List.lookup piece.type_name s.piece_types)
        to_sq (generate_moves_for_piece s from_sq.1 from_sq.2) rng = (some dest, rng1))
    (hinb : s.in_bounds dest = true) :
    try_make_move s from_sq to_sq rng now_ms =
      phases_code_order s piece (List.lookup piece.type_name s.piece_types)
        from_sq dest rng1 now_ms := by
  unfold try_make_move
  rw [hb]
  dsimp only
  rw [if_neg (not_not_intro hlegal), hpre]
  dsimp only
  rw [if_neg (not_not_intro hinb)]
  exact rfl

/-- Witness for C3 on a concrete rook move. -/
theorem C3_witness :
    c3State.board (0, 0) = some (mkPiece "white" "rook") ∧
    (1, 0) ∈ generate_moves_for_piece c3State 0 0 ∧
    apply_script_pre_move (mkPiece "white" "rook")
      (List.lookup (mkPiece "white" "rook").type_name c3State.piece_types) (1, 0)
      (generate_moves_for_piece c3State 0 0) ⟨[], []⟩ = (some (1, 0), ⟨[], []⟩) ∧
    c3State.in_bounds (1, 0) = true ∧
    try_make_move c3State (0, 0) (1, 0) ⟨[], []⟩ 0 =
      phases_code_order c3State (mkPiece "white" "rook")
        (List.lookup (mkPiece "white" "rook").type_name c3State.piece_types)
        (0, 0) (1, 0) ⟨[], []⟩ 0 :=
  ⟨by decide, by decide, by decide, by decide,
    C3_phase_order c3State (0, 0) (1, 0) ⟨[], []⟩ 0 (mkPiece "white" "rook")
      (1, 0) ⟨[], []⟩ (by decide) (by decide) (by decide) (by decide)⟩

/-- Counterexample to C3 as stated: on `c3State` the accepted rook move
`(0,0) → (1,0)` lands on the board edge, so the edge trigger deactivates
chunk `z` before the chunk-exit scan runs and the mover escapes the chunk's
leave script; with the phases assembled in the specification's stated order
(chunk enter/exit before edge triggers) the leave script would fire and the
piece left on the destination square would differ. -/
theorem C3_counterexample :
    (try_make_move c3State (0, 0) (1, 0) ⟨[], []⟩ 0).2.2.1 = true ∧
    (try_make_move c3State (0, 0) (1, 0) ⟨[], []⟩ 0).1.board (1, 0) ≠
      (phases_spec_order c3State (mkPiece "white" "rook")
        (List.lookup (mkPiece "white" "rook").type_name c3State.piece_types)
        (0, 0) (1, 0) ⟨[], []⟩ 0).1.board (1, 0) := by
  decide

/-- C5: refuted — `int(cfg.get("fullmove", 1))` (line 904) is not wrapped in
`try`, so a config whose `fullmove` value is not `int()`-convertible raises
after `cols`, `rows` and `turn` have already been written: the import aborts
partway and leaves a mixture of old and new state (here: new 3×3 dimensions
and side-to-move, but the old game's fullmove counter and board). -/
theorem C5_import_aborts_partway :
    (import_config c5OldState c5BadCfg 0).2 =
      some "invalid literal for int(): fullmove" ∧
    (import_config c5OldState c5BadCfg 0).1.cols = 3 ∧
    (import_config c5OldState c5BadCfg 0).1.rows = 3 ∧
    (import_config c5OldState c5BadCfg 0).1.turn = "white" ∧
    (import_config c5OldState c5BadCfg 0).1.fullmove = 7 ∧
    (import_config c5OldState c5BadCfg 0).1.board (0, 0) =
      some (mkPiece "white" "king") ∧
    c5OldState.cols = 5 ∧ c5OldState.turn = "black" ∧
    c5OldState.fullmove = 7 := by
  decide

theorem explodeStep_tf (center : Pos) (cs : Bool) (st : GameState)
    (d : Int × Int) :
    (explodeStep center cs st d).turn = st.turn ∧
    (explodeStep center cs st d).fullmove = st.fullmove := by
  rcases explodeStep_cases center cs st d with h | h <;> rw [h] <;> exact ⟨rfl, rfl⟩

theorem explode_fold_tf (center : Pos) (cs : Bool) (cells : List (Int × Int))
    (st : GameState) :
    (cells.foldl (explodeStep center cs) st).turn = st.turn ∧
    (cells.foldl (explodeStep center cs) st).fullmove = st.fullmove := by
  induction cells generalizing st with
  | nil => exact ⟨rfl, rfl⟩
  | cons c rest ih =>
    simp only [List.foldl_cons]
    rcases ih (explodeStep center cs st c) with ⟨h1, h2⟩
    rcases explodeStep_tf center cs st c with ⟨g1, g2⟩
    exact ⟨h1.trans g1, h2.trans g2⟩

theorem resolve_capture_tf (s : GameState) (piece : Piece)
    (ptype : Option PieceType) (target : Option Piece) (dest : Pos) :
    (resolve_capture s piece ptype target dest).turn = s.turn ∧
    (resolve_capture s piece ptype target dest).fullmove = s.fullmove := by
  unfold resolve_capture
  dsimp only
  split_ifs <;>
    first
      | exact ⟨rfl, rfl⟩
      | exact ⟨(explode_fold_tf _ _ _ _).1, (explode_fold_tf _ _ _ _).2⟩

theorem apply_script_post_move_tf (s : GameState) (piece : Piece)
    (ptype : Option PieceType) (to_sq : Pos) :
    (apply_script_post_move s piece ptype to_sq).1.turn = s.turn ∧
    (apply_script_post_move s piece ptype to_sq).1.fullmove = s.fullmove := by
  unfold apply_script_post_move
  rcases h : resolve_script_descriptor piece ptype with ⟨_ | sn, param⟩
  · exact ⟨rfl, rfl⟩
  · dsimp only
    split_ifs <;> exact ⟨rfl, rfl⟩

theorem chunkOffStep_tf (st : GameState) (q : Pos) :
    (chunkOffStep st q).turn = st.turn ∧
    (chunkOffStep st q).fullmove = st.fullmove := by
  unfold chunkOffStep
  split_ifs <;> exact ⟨rfl, rfl⟩

theorem off_fold_tf (cells : List Pos) (st : GameState) :
    (cells.foldl chunkOffStep st).turn = st.turn ∧
    (cells.foldl chunkOffStep st).fullmove = st.fullmove := by
  induction cells generalizing st with
  | nil => exact ⟨rfl, rfl⟩
  | cons c rest ih =>
    simp only [List.foldl_cons]
    rcases ih (chunkOffStep st c) with ⟨h1, h2⟩
    rcases chunkOffStep_tf st c with ⟨g1, g2⟩
    exact ⟨h1.trans g1, h2.trans g2⟩

theorem chunkUndamageStep_tf (st : GameState) (q : Pos) :
    (chunkUndamageStep st q).turn = st.turn ∧
    (chunkUndamageStep st q).fullmove = st.fullmove := by
  unfold chunkUndamageStep
  split_ifs <;> exact ⟨rfl, rfl⟩

theorem un_fold_tf (cells : List Pos) (st : GameState) :
    (cells.foldl chunkUndamageStep st).turn = st.turn ∧
    (cells.foldl chunkUndamageStep st).fullmove = st.fullmove := by
  induction cells generalizing st with
  | nil => exact ⟨rfl, rfl⟩
  | cons c rest ih =>
    simp only [List.foldl_cons]
    rcases ih (chunkUndamageStep st c) with ⟨h1, h2⟩
    rcases chunkUndamageStep_tf st c with ⟨g1, g2⟩
    exact ⟨h1.trans g1, h2.trans g2⟩

theorem chunkFillStep_tf (fp : Piece) (st : GameState) (q : Pos) :
    (chunkFillStep fp st q).turn = st.turn ∧
    (chunkFillStep fp st q).fullmove = st.fullmove := by
  unfold chunkFillStep
  split_ifs <;> exact ⟨rfl, rfl⟩

theorem fill_fold_tf (fp : Piece) (cells : List Pos) (st : GameState) :
    (cells.foldl (chunkFillStep fp) st).turn = st.turn ∧
    (cells.foldl (chunkFillStep fp) st).fullmove = st.fullmove := by
  induction cells generalizing st with
  | nil => exact ⟨rfl, rfl⟩
  | cons c rest ih =>
    simp only [List.foldl_cons]
    rcases ih (chunkFillStep fp st c) with ⟨h1, h2⟩
    rcases chunkFillStep_tf fp st c with ⟨g1, g2⟩
    exact ⟨h1.trans g1, h2.trans g2⟩

theorem ensure_type_tf (s : GameState) (tname : String) :
    (ensure_type_queenlike s tname).turn = s.turn ∧
    (ensure_type_queenlike s tname).fullmove = s.fullmove := by
  unfold ensure_type_queenlike
  split_ifs
  · exact ⟨rfl, rfl⟩
  · rcases List.lookup "queen" s.piece_types with _ | base <;> exact ⟨rfl, rfl⟩

theorem toggle_chunk_tf (s : GameState) (name : String)
    (mc : Option String) :
    (toggle_chunk s name mc).turn = s.turn ∧
    (toggle_chunk s name mc).fullmove = s.fullmove := by
  unfold toggle_chunk
  rcases h : List.lookup name s.chunks with _ | ch
  · exact ⟨rfl, rfl⟩
  · obtain ⟨⟨rx1, ry1, rx2, ry2⟩, fl, active, owner, es, ls⟩ := ch
    dsimp only
    split_ifs
    · exact ⟨rfl, rfl⟩
    · exact ⟨(off_fold_tf _ _).1, (off_fold_tf _ _).2⟩
    · rcases fl with _ | f
      · exact ⟨(un_fold_tf _ _).1, (un_fold_tf _ _).2⟩
      · dsimp only
        constructor
        · rw [(fill_fold_tf _ _ _).1, (ensure_type_tf _ _).1]
          exact (un_fold_tf _ _).1
        · rw [(fill_fold_tf _ _ _).2, (ensure_type_tf _ _).2]
          exact (un_fold_tf _ _).2

theorem spawn_tf (s : GameState) (pos : Pos)
    (dist minw maxw minh maxh : Int) (rng : Rng) :
    (spawn_random_chunk_near_edge s pos dist minw maxw minh maxh rng).1.turn =
      s.turn ∧
    (spawn_random_chunk_near_edge s pos dist minw maxw minh maxh rng).1.fullmove =
      s.fullmove := by
  unfold spawn_random_chunk_near_edge
  dsimp only
  split_ifs <;> exact ⟨rfl, rfl⟩

theorem edgeTrigStep_tf (piece : Piece) (pos : Pos) (mind : Int)
    (acc : GameState × Bool × Rng) (trig : Trigger) :
    (edgeTrigStep piece pos mind acc trig).1.turn = acc.1.turn ∧
    (edgeTrigStep piece pos mind acc trig).1.fullmove = acc.1.fullmove := by
  unfold edgeTrigStep
  rcases trig with ⟨ttype, dist, chunk⟩ | ⟨ttype, dist, minw, maxw, minh, maxh⟩ <;>
    dsimp only <;> split_ifs
  · exact ⟨rfl, rfl⟩
  · exact ⟨rfl, rfl⟩
  · exact ⟨rfl, rfl⟩
  · exact ⟨(toggle_chunk_tf _ _ _).1, (toggle_chunk_tf _ _ _).2⟩
  · exact ⟨rfl, rfl⟩
  · exact ⟨rfl, rfl⟩
  · exact ⟨(spawn_tf _ _ _ _ _ _ _ _).1, (spawn_tf _ _ _ _ _ _ _ _).2⟩

theorem edge_fold_tf (piece : Piece) (pos : Pos) (mind : Int)
    (trigs : List Trigger) :
    ∀ acc : GameState × Bool × Rng,
      (trigs.foldl (edgeTrigStep piece pos mind) acc).1.turn = acc.1.turn ∧
      (trigs.foldl (edgeTrigStep piece pos mind) acc).1.fullmove =
        acc.1.fullmove := by
  induction trigs with
  | nil => intro acc; exact ⟨rfl, rfl⟩
  | cons t rest ih =>
    intro acc
    simp only [List.foldl_cons]
    rcases ih (edgeTrigStep piece pos mind acc t) with ⟨h1, h2⟩
    rcases edgeTrigStep_tf piece pos mind acc t with ⟨g1, g2⟩
    exact ⟨h1.trans g1, h2.trans g2⟩

theorem check_edge_triggers_tf (s : GameState) (piece : Piece) (pos : Pos)
    (alive : Bool) (rng : Rng) :
    (check_edge_triggers s piece pos alive rng).1.turn = s.turn ∧
    (check_edge_triggers s piece pos alive rng).1.fullmove = s.fullmove := by
  unfold check_edge_triggers
  split_ifs
  · exact ⟨rfl, rfl⟩
  · exact edge_fold_tf piece pos _ s.edge_triggers (s, alive, rng)

theorem apply_limit_result_tf (s : GameState) (a b c : String) :
    (apply_limit_result s a b c).1.turn = s.turn ∧
    (apply_limit_result s a b c).1.fullmove = s.fullmove := by
  unfold apply_limit_result
  split_ifs <;> exact ⟨rfl, rfl⟩

theorem check_limits_tf (s : GameState) (now_ms : Int) :
    (check_limits_game_over s now_ms).1.turn = s.turn ∧
    (check_limits_game_over s now_ms).1.fullmove = s.fullmove := by
  unfold check_limits_game_over
  dsimp only
  split_ifs <;>
    first
      | exact ⟨rfl, rfl⟩
      | exact apply_limit_result_tf _ _ _ _

theorem update_game_over_tf (s : GameState) (now_ms : Int) :
    (update_game_over s now_ms).1.turn = s.turn ∧
    (update_game_over s now_ms).1.fullmove = s.fullmove := by
  unfold update_game_over
  dsimp only
  split_ifs <;> dsimp only <;>
    first
      | exact ⟨rfl, rfl⟩
      | exact check_limits_tf _ _

theorem phases_code_order_tf (s : GameState) (piece : Piece)
    (ptype : Option PieceType) (from_sq dest : Pos) (rng1 : Rng)
    (now_ms : Int) :
    (phases_code_order s piece ptype from_sq dest rng1 now_ms).1.turn =
      (if s.turn = "black" then "white" else "black") ∧
    (phases_code_order s piece ptype from_sq dest rng1 now_ms).1.fullmove =
      (if s.turn = "black" then s.fullmove + 1 else s.fullmove) := by
  unfold phases_code_order
  dsimp only
  constructor
  · rw [(update_game_over_tf _ _).1, apply_ite GameState.turn]
    dsimp only
    rw [ite_self, (check_edge_triggers_tf _ _ _ _ _).1]
    dsimp only
    rw [apply_ite Prod.fst, apply_ite GameState.turn,
      (apply_script_post_move_tf _ _ _ _).1]
    dsimp only
    rw [ite_self, (resolve_capture_tf _ _ _ _ _).1]
  · rw [(update_game_over_tf _ _).2, apply_ite GameState.fullmove]
    dsimp only
    rw [ite_self, (check_edge_triggers_tf _ _ _ _ _).2]
    dsimp only
    rw [apply_ite Prod.fst, apply_ite GameState.turn,
      (apply_script_post_move_tf _ _ _ _).1]
    dsimp only
    rw [ite_self, (resolve_capture_tf _ _ _ _ _).1,
      apply_ite GameState.fullmove, (apply_script_post_move_tf _ _ _ _).2]
    dsimp only
    rw [ite_self, (resolve_capture_tf _ _ _ _ _).2]

/-- C9: on every accepted move the side to move flips exactly once (white to
black or black to white) and the fullmove counter increments exactly when the
mover was black — including when the mover itself is removed during the move
by its own explosion or decay script (no hypothesis below requires the mover
to survive). -/
theorem C9_turn_fullmove (s : GameState) (from_sq to_sq : Pos) (rng : Rng)
    (now_ms : Int) (piece : Piece) (dest : Pos) (rng1 : Rng)
    (hb : s.board from_sq = some piece)
    (hlegal : to_sq ∈ generate_moves_for_piece s from_sq.1 from_sq.2)
    (hpre : apply_script_pre_move piece (List.lookup piece.type_name s.piece_types)
        to_sq (generate_moves_for_piece s from_sq.1 from_sq.2) rng = (some dest, rng1))
    (hinb : s.in_bounds dest = true)
    (hcolor : piece.color = s.turn)
    (hwb : s.turn = "white" ∨ s.turn = "black") :
    (try_make_move s from_sq to_sq rng now_ms).1.turn ≠ s.turn ∧
    (try_make_move s from_sq to_sq rng now_ms).1.turn =
      (if piece.color = "black" then "white" else "black") ∧
    (try_make_move s from_sq to_sq rng now_ms).1.fullmove =
      (if piece.color = "black" then s.fullmove + 1 else s.fullmove) := by
  have he : try_make_move s from_sq to_sq rng now_ms =
      phases_code_order s piece (List.lookup piece.type_name s.piece_types)
        from_sq dest rng1 now_ms := by
    unfold try_make_move
    rw [hb]
    dsimp only
    rw [if_neg (not_not_intro hlegal), hpre]
    dsimp only
    rw [if_neg (not_not_intro hinb)]
    exact rfl
  rw [he, hcolor]
  have h := phases_code_order_tf s piece
    (List.lookup piece.type_name s.piece_types) from_sq dest rng1 now_ms
  refine ⟨?_, h.1, h.2⟩
  rw [h.1]
  rcases hwb with hw | hbk
  · rw [hw]
    simp
  · rw [hbk]
    simp

/-- Witness for C9 on a concrete rook move by white. -/
theorem C9_witness :
    c2State.board (0, 0) = some (mkPiece "white" "rook") ∧
    (1, 0) ∈ generate_moves_for_piece c2State 0 0 ∧
    apply_script_pre_move (mkPiece "white" "rook")
      (List.lookup (mkPiece "white" "rook").type_name c2State.piece_types) (1, 0)
      (generate_moves_for_piece c2State 0 0) ⟨[], []⟩ = (some (1, 0), ⟨[], []⟩) ∧
    c2State.in_bounds (1, 0) = true ∧
    (mkPiece "white" "rook").color = c2State.turn ∧
    (c2State.turn = "white" ∨ c2State.turn = "black") ∧
    ((try_make_move c2State (0, 0) (1, 0) ⟨[], []⟩ 0).1.turn ≠ c2State.turn ∧
     (try_make_move c2State (0, 0) (1, 0) ⟨[], []⟩ 0).1.turn =
       (if (mkPiece "white" "rook").color = "black" then "white" else "black") ∧
     (try_make_move c2State (0, 0) (1, 0) ⟨[], []⟩ 0).1.fullmove =
       (if (mkPiece "white" "rook").color = "black" then c2State.fullmove + 1
        else c2State.fullmove)) :=
  ⟨by decide, by decide, by decide, by decide, by decide, by decide,
    C9_turn_fullmove c2State (0, 0) (1, 0) ⟨[], []⟩ 0 (mkPiece "white" "rook")
      (1, 0) ⟨[], []⟩ (by decide) (by decide) (by decide) (by decide)
      (by decide) (by decide)⟩

theorem dictInsert_fresh {α : Type} (l : List (String × α)) (k : String)
    (v : α) (h : k ∉ l.map Prod.fst) : dictInsert l k v = l ++ [(k, v)] := by
  induction l with
  | nil => rfl
  | cons e rest ih =>
    unfold dictInsert
    rw [if_neg (fun hk => h (by simp [hk])), ih (fun hk => h (by simp [hk]))]
    exact rfl

theorem importChunks_rt (entries : List (String × Chunk))
    (how : ∀ e ∈ entries,
      e.2.owner = "white" ∨ e.2.owner = "black" ∨ e.2.owner = "any") :
    ∀ st : GameState,
      (st.chunks.map Prod.fst ++ entries.map Prod.fst).Nodup →
      importChunks st (entries.map (fun e => (e.1, JField.val (rawOfChunk e.2)))) =
        ({ st with chunks := st.chunks ++ entries }, none) := by
  induction entries with
  | nil =>
    intro st _
    show (st, none) = _
    rw [List.append_nil]
  | cons e rest ih =>
    intro st hnd
    obtain ⟨name, ch⟩ := e
    have hown : ch.owner = "white" ∨ ch.owner = "black" ∨ ch.owner = "any" :=
      how (name, ch) (List.mem_cons_self _ _)
    simp only [List.map_cons]
    unfold importChunks rawOfChunk
    dsimp only [Option.getD]
    rw [if_pos hown]
    have hch : ({ rect := ch.rect, fill := ch.fill, active := ch.active, owner := ch.owner, enter_script := ch.enter_script, leave_script := ch.leave_script } : Chunk) = ch := rfl
    rw [hch]
    have hfresh : name ∉ st.chunks.map Prod.fst := by
      intro hmem
      rw [List.nodup_append] at hnd
      exact hnd.2.2 hmem (by simp)
    rw [dictInsert_fresh _ _ _ hfresh]
    have hnd' : ((st.chunks ++ [(name, ch)]).map Prod.fst ++
        (rest.map Prod.fst)).Nodup := by
      simp only [List.map_append, List.append_assoc] at hnd ⊢
      simpa using hnd
    exact ((ih (fun x hx => how x (List.mem_cons_of_mem _ hx))
      { st with chunks := st.chunks ++ [(name, ch)] } hnd').trans (by simp))

theorem importTrigs_rt (trigs : List Trigger)
    (hwf : ∀ t ∈ trigs, trigWF t) :
    ∀ st : GameState,
      importTrigs st (trigs.map rawOfTrigger) =
        ({ st with edge_triggers := st.edge_triggers ++ trigs }, none) := by
  induction trigs with
  | nil =>
    intro st
    show (st, none) = _
    rw [List.append_nil]
  | cons t rest ih =>
    intro st
    have hwft := hwf t (List.mem_cons_self _ _)
    have ihr := ih (fun x hx => hwf x (List.mem_cons_of_mem _ hx))
    rcases ht : t with ⟨ty, d, c⟩ | ⟨ty, d, mw, xw, mh, xh⟩
    · rw [ht] at hwft
      have hd : (0 : Int) ≤ d ∧ c ≠ "" := hwft
      simp only [List.map_cons]
      unfold importTrigs rawOfTrigger
      dsimp only [Option.getD, JField.getD]
      rw [if_neg (by decide : ¬ ("chunk" : String) = "random")]
      rw [if_neg hd.2]
      have hmax : max 0 d = d := by omega
      rw [hmax]
      exact (ihr _).trans (by simp)
    · rw [ht] at hwft
      have hd : (0 : Int) ≤ d := hwft
      simp only [List.map_cons]
      unfold importTrigs rawOfTrigger
      dsimp only [Option.getD, JField.getD]
      rw [if_pos (rfl : ("random" : String) = "random")]
      have hmax : max 0 d = d := by omega
      rw [hmax]
      exact (ihr _).trans (by simp)



theorem importDirs_rt (ds : List (Int × Int)) :
    importDirs (ds.map (fun d => RawDir.pair (JField.val d))) = some ds := by
  induction ds with
  | nil => rfl
  | cons d rest ih =>
    simp only [List.map_cons]
    unfold importDirs
    rw [ih]

theorem importPieceTypes_rt (pts : List (String × PieceType))
    (hname : ∀ e ∈ pts, e.2.name = e.1) :
    ∀ st : GameState,
      (st.piece_types.map Prod.fst ++ pts.map Prod.fst).Nodup →
      importPieceTypes st
          (pts.map (fun e => (e.1, JField.val (rawOfPieceType e.2)))) =
        ({ st with piece_types := st.piece_types ++ pts }, none) := by
  induction pts with
  | nil =>
    intro st _
    show (st, none) = _
    rw [List.append_nil]
  | cons e rest ih =>
    intro st hnd
    obtain ⟨name, pt⟩ := e
    have hnm : pt.name = name := hname (name, pt) (List.mem_cons_self _ _)
    simp only [List.map_cons]
    unfold importPieceTypes rawOfPieceType
    dsimp only [Option.getD]
    rw [importDirs_rt]
    dsimp only
    have hpt : ({ name := name, kind := pt.kind, directions := pt.directions, max_range := pt.max_range, can_jump := pt.can_jump, explosion_radius := pt.explosion_radius, immune_to_explosion := pt.immune_to_explosion, damaged_ok := pt.damaged_ok, is_royal := pt.is_royal, script_name := pt.script_name, script_param := pt.script_param } : PieceType) = pt := by
      rw [← hnm]
    rw [hpt]
    have hfresh : name ∉ st.piece_types.map Prod.fst := by
      intro hmem
      rw [List.nodup_append] at hnd
      exact hnd.2.2 hmem (by simp)
    rw [dictInsert_fresh _ _ _ hfresh]
    have hnd' : ((st.piece_types ++ [(name, pt)]).map Prod.fst ++
        (rest.map Prod.fst)).Nodup := by
      simp only [List.map_append, List.append_assoc] at hnd ⊢
      simpa using hnd
    exact ((ih (fun x hx => hname x (List.mem_cons_of_mem _ hx))
      { st with piece_types := st.piece_types ++ [(name, pt)] } hnd').trans
      (by simp))

theorem importDamaged_rt (ds : List Pos) :
    ∀ st : GameState,
      (∀ d ∈ ds, 0 ≤ d.1 ∧ d.1 < st.cols ∧ 0 ≤ d.2 ∧ d.2 < st.rows) →
      (st.damaged ++ ds).Nodup →
      importDamaged st (ds.map JField.val) =
        { st with damaged := st.damaged ++ ds } := by
  induction ds with
  | nil =>
    intro st _ _
    show st = _
    rw [List.append_nil]
  | cons d rest ih =>
    intro st hin hnd
    simp only [List.map_cons]
    unfold importDamaged
    rw [if_pos (hin d (List.mem_cons_self _ _))]
    dsimp only
    have hfresh : d ∉ st.damaged := by
      rw [List.nodup_append] at hnd
      intro hmem
      exact hnd.2.2 hmem (by simp)
    rw [show setInsert st.damaged d = st.damaged ++ [d] from by
      unfold setInsert
      rw [if_neg hfresh]]
    have hnd' : (({ st with damaged := st.damaged ++ [d] } :
        GameState).damaged ++ rest).Nodup := by
      show ((st.damaged ++ [d]) ++ rest).Nodup
      simp only [List.append_assoc] at hnd ⊢
      simpa using hnd
    exact ((ih { st with damaged := st.damaged ++ [d] }
      (fun x hx => hin x (List.mem_cons_of_mem _ hx)) hnd').trans (by simp))



theorem ensure_type_id (s : GameState) (t : String)
    (h : (List.lookup t s.piece_types).isSome = true) :
    ensure_type_queenlike s t = s := by
  unfold ensure_type_queenlike
  rw [if_pos h]

theorem importBoardEntries_rt (entries : List RawBoardEntry) :
    ∀ st : GameState,
      (∀ e ∈ entries, (List.lookup e.type_ st.piece_types).isSome = true) →
      (∀ e ∈ entries, ¬ (e.symbol = none ∧ e.type_ = "")) →
      importBoardEntries st (entries.map JField.val) =
        { st with board := entries.foldl (fun b e =>
            if 0 ≤ e.x ∧ e.x < st.cols ∧ 0 ≤ e.y ∧ e.y < st.rows then
              bupd b (e.x, e.y) (some (importedPiece e))
            else b) st.board } := by
  induction entries with
  | nil =>
    intro st _ _
    exact rfl
  | cons e rest ih =>
    intro st h1 h2
    simp only [List.map_cons, List.foldl_cons]
    unfold importBoardEntries
    rw [if_neg (h2 e (List.mem_cons_self _ _))]
    dsimp only
    rw [ensure_type_id st e.type_ (h1 e (List.mem_cons_self _ _))]
    by_cases hb : 0 ≤ e.x ∧ e.x < st.cols ∧ 0 ≤ e.y ∧ e.y < st.rows
    · rw [if_pos hb, if_pos hb]
      exact ih { st with board := bupd st.board (e.x, e.y) (some (importedPiece e)) }
        (fun x hx => h1 x (List.mem_cons_of_mem _ hx))
        (fun x hx => h2 x (List.mem_cons_of_mem _ hx))
    · rw [if_neg hb, if_neg hb]
      exact ih st
        (fun x hx => h1 x (List.mem_cons_of_mem _ hx))
        (fun x hx => h2 x (List.mem_cons_of_mem _ hx))



theorem entries_fold_board (C R : Int) (entries : List RawBoardEntry) :
    ∀ (b0 : Pos → Option Piece) (q : Pos),
      (entries.map (fun e => ((e.x, e.y) : Pos))).Nodup →
      (entries.foldl (fun b e =>
          if 0 ≤ e.x ∧ e.x < C ∧ 0 ≤ e.y ∧ e.y < R then
            bupd b (e.x, e.y) (some (importedPiece e))
          else b) b0) q =
        (match entries.find? (fun e => decide (((e.x, e.y) : Pos) = q)) with
         | some e =>
            if 0 ≤ e.x ∧ e.x < C ∧ 0 ≤ e.y ∧ e.y < R then
              some (importedPiece e)
            else b0 q
         | none => b0 q) := by
  induction entries with
  | nil =>
    intro b0 q _
    rfl
  | cons e rest ih =>
    intro b0 q hnd
    simp only [List.map_cons, List.nodup_cons] at hnd
    simp only [List.foldl_cons]
    rw [ih _ q hnd.2]
    by_cases hq : ((e.x, e.y) : Pos) = q
    · have hrest : rest.find? (fun x => decide (((x.x, x.y) : Pos) = q)) = none := by
        rw [List.find?_eq_none]
        intro x hx hdec
        rw [decide_eq_true_iff] at hdec
        exact hnd.1 (hq ▸ hdec ▸ List.mem_map_of_mem _ hx)
      rw [hrest, List.find?_cons_of_pos _ (by simpa using hq)]
      dsimp only
      by_cases hb : 0 ≤ e.x ∧ e.x < C ∧ 0 ≤ e.y ∧ e.y < R
      · rw [if_pos hb, if_pos hb, hq]
        simp [bupd]
      · rw [if_neg hb, if_neg hb]
    · rw [List.find?_cons_of_neg _ (by simpa using hq)]
      have hb0 : (if 0 ≤ e.x ∧ e.x < C ∧ 0 ≤ e.y ∧ e.y < R then
          bupd b0 (e.x, e.y) (some (importedPiece e)) else b0) q = b0 q := by
        split_ifs
        · show bupd b0 (e.x, e.y) (some (importedPiece e)) q = b0 q
          unfold bupd
          rw [if_neg (fun h => hq h.symm)]
        · rfl
      rcases hf : rest.find? (fun x => decide (((x.x, x.y) : Pos) = q)) with _ | x
      · simp only [hf]
        exact hb0
      · simp only [hf]
        rw [hb0]



theorem find_filterMap_cells (f : Pos → Option RawBoardEntry)
    (hcoord : ∀ c e, f c = some e → ((e.x, e.y) : Pos) = c) :
    ∀ (cells : List Pos), cells.Nodup → ∀ q ∈ cells,
      (cells.filterMap f).find? (fun e => decide (((e.x, e.y) : Pos) = q)) =
        f q := by
  intro cells
  induction cells with
  | nil => intro _ q hq; exact absurd hq (List.not_mem_nil q)
  | cons c rest ih =>
    intro hnd q hq
    simp only [List.nodup_cons] at hnd
    rcases hfc : f c with _ | e0
    · rw [List.filterMap_cons_none hfc]
      rcases List.mem_cons.mp hq with rfl | hq'
      · rw [List.find?_eq_none.mpr, hfc]
        intro x hx hdec
        rw [decide_eq_true_iff] at hdec
        rcases List.mem_filterMap.mp hx with ⟨c', hc', hfc'⟩
        refine hnd.1 ?_
        rw [hdec.symm.trans (hcoord c' x hfc')]
        exact hc' 
      · exact ih hnd.2 q hq'
    · rw [List.filterMap_cons_some hfc]
      have hce : ((e0.x, e0.y) : Pos) = c := hcoord c e0 hfc
      rcases List.mem_cons.mp hq with rfl | hq'
      · rw [List.find?_cons_of_pos _ (by simpa using hce), hfc]
      · rw [List.find?_cons_of_neg]
        · exact ih hnd.2 q hq'
        · simp only [decide_eq_true_iff, hce]
          rintro rfl
          exact hnd.1 hq'

theorem coords_filterMap_nodup (f : Pos → Option RawBoardEntry)
    (hcoord : ∀ c e, f c = some e → ((e.x, e.y) : Pos) = c) :
    ∀ (cells : List Pos), cells.Nodup →
      ((cells.filterMap f).map (fun e => ((e.x, e.y) : Pos))).Nodup := by
  intro cells
  induction cells with
  | nil => intro _; exact List.nodup_nil
  | cons c rest ih =>
    intro hnd
    simp only [List.nodup_cons] at hnd
    rcases hfc : f c with _ | e0
    · rw [List.filterMap_cons_none hfc]
      exact ih hnd.2
    · rw [List.filterMap_cons_some hfc]
      simp only [List.map_cons, List.nodup_cons]
      refine ⟨?_, ih hnd.2⟩
      rw [hcoord c e0 hfc]
      intro hmem
      rcases List.mem_map.mp hmem with ⟨x, hx, hcx⟩
      rcases List.mem_filterMap.mp hx with ⟨c', hc', hfc'⟩
      refine hnd.1 ?_
      rw [hcx.symm.trans (hcoord c' x hfc')]
      exact hc' 



theorem mem_boardCells (s : GameState) (q : Pos) :
    q ∈ boardCells s ↔
      0 ≤ q.1 ∧ q.1 < s.cols ∧ 0 ≤ q.2 ∧ q.2 < s.rows := by
  unfold boardCells
  simp only [List.mem_flatMap, List.mem_map, List.mem_range]
  constructor
  · rintro ⟨y, hy, x, hx, rfl⟩
    dsimp only
    omega
  · rintro ⟨h1, h2, h3, h4⟩
    refine ⟨q.2.toNat, by omega, q.1.toNat, by omega, ?_⟩
    rcases q with ⟨qx, qy⟩
    simp only [Prod.mk.injEq]
    constructor <;> simp <;> omega

theorem nodup_boardCells (s : GameState) : (boardCells s).Nodup := by
  unfold boardCells
  rw [List.nodup_flatMap]
  constructor
  · intro y _
    exact (List.nodup_range _).map (fun a b hab => by simpa using hab)
  · apply List.Pairwise.imp ?_ (List.pairwise_lt_range _)
    intro a b hab
    intro x hxa hxb
    simp only [List.mem_map, List.mem_range] at hxa hxb
    rcases hxa with ⟨xa, _, rfl⟩
    rcases hxb with ⟨xb, _, heq⟩
    have hsnd := congrArg Prod.snd heq
    simp only at hsnd
    omega



theorem boardEntries_symbol (s : GameState) :
    ∀ e ∈ boardEntries s, ¬ (e.symbol = none ∧ e.type_ = "") := by
  intro e he
  rcases List.mem_filterMap.mp he with ⟨q, _, hfq⟩
  rcases hmap : s.board q with _ | p
  · rw [hmap] at hfq
    exact absurd hfq (by simp)
  · rw [hmap, Option.map_some'] at hfq
    rcases Option.some.inj hfq with rfl
    rintro ⟨hsym, _⟩
    exact Option.noConfusion hsym

theorem boardEntries_coord (s : GameState) : ∀ (c : Pos) (e : RawBoardEntry),
    (s.board c).map (fun p =>
      ({ x := c.1, y := c.2, color := p.color, type_ := p.type_name,
         symbol := some p.symbol } : RawBoardEntry)) = some e →
    ((e.x, e.y) : Pos) = c := by
  intro c e hf
  rcases hmap : s.board c with _ | p
  · rw [hmap] at hf
    exact absurd hf (by simp)
  · rw [hmap, Option.map_some'] at hf
    rcases Option.some.inj hf with rfl
    rfl



theorem boardEntries_import (s : GameState) (X : GameState)
    (hcols : X.cols = s.cols) (hrows : X.rows = s.rows)
    (hboard : X.board = List.foldl (fun b e =>
        if 0 ≤ e.x ∧ e.x < s.cols ∧ 0 ≤ e.y ∧ e.y < s.rows then
          bupd b (e.x, e.y) (some (importedPiece e))
        else b) (fun _ => none) (boardEntries s)) :
    boardEntries X = boardEntries s := by
  have hcells : boardCells X = boardCells s := by
    unfold boardCells
    rw [hcols, hrows]
  unfold boardEntries
  rw [hcells]
  apply List.filterMap_congr
  intro q hq
  rw [hboard]
  rw [entries_fold_board s.cols s.rows (boardEntries s) _ q ?nd]
  case nd =>
    unfold boardEntries
    exact coords_filterMap_nodup _ (boardEntries_coord s) _ (nodup_boardCells s)
  unfold boardEntries
  rw [find_filterMap_cells _ (boardEntries_coord s) (boardCells s)
    (nodup_boardCells s) q hq]
  rcases hsq : s.board q with _ | p
  · rfl
  · rw [Option.map_some']
    dsimp only
    rw [if_pos]
    · rfl
    · have hb := (mem_boardCells s q).mp hq
      exact ⟨hb.1, hb.2.1, hb.2.2.1, hb.2.2.2⟩



/-- C4: round-trip — importing the configuration dictionary produced by
exporting a structurally well-formed state `s` (`WF`: the invariants the
specification's data model states for every engine state) runs to completion
with no error, and the resulting state's own export equals the export of `s`.
Clock-derived fields (`game_over`, `result_text`, `start_time_ms`, selection
state) are not part of the export and are thereby excluded from the
comparison. -/
theorem C4_roundtrip (s s0 : GameState) (now_ms : Int) (h : WF s) :
    (import_config s0 (export_config s) now_ms).2 = none ∧
    export_config (import_config s0 (export_config s) now_ms).1 =
      export_config s := by
  obtain ⟨hc1, hc2, hr1, hr2, hdn, hdb, hcown, hcnd, htw, hptn, hptnd,
    hking, hqueen, hbt⟩ := h
  unfold import_config export_config
  dsimp only [JField.getD, Option.getD]
  rw [show max 2 (min 20 s.cols) = s.cols from by omega,
    show max 2 (min 20 s.rows) = s.rows from by omega]
  rw [importChunks_rt s.chunks hcown _ ?hch]
  case hch => simpa using hcnd
  dsimp only
  rw [List.nil_append]
  rw [importTrigs_rt s.edge_triggers htw _]
  dsimp only
  rw [List.nil_append]
  rw [importPieceTypes_rt s.piece_types hptn _ ?hpt]
  case hpt => simpa using hptnd
  dsimp only
  rw [List.nil_append]
  have hkq : ¬ ((List.lookup "king" s.piece_types).isNone = true ∨
      (List.lookup "queen" s.piece_types).isNone = true) := by
    rintro (hk | hk) <;> rw [Option.isNone_iff_eq_none] at hk <;>
      simp [hk] at hking hqueen
  rw [if_neg hkq]
  rw [importBoardEntries_rt (boardEntries s) _ ?hb1 ?hb2]
  case hb1 => exact hbt
  case hb2 => exact boardEntries_symbol s
  dsimp only
  rw [importDamaged_rt s.damaged _ ?hd1 ?hd2]
  case hd1 => exact hdb
  case hd2 => simpa using hdn
  dsimp only
  rw [List.nil_append]
  refine ⟨rfl, ?_⟩
  rw [show updateRules init_default_rules (rawOfRules s.rules) = s.rules from rfl]
  rw [boardEntries_import s _ ?e1 ?e2 ?e3]
  case e1 => rfl
  case e2 => rfl
  case e3 => rfl

/-- Witness for C4 on a concrete well-formed state carrying a piece, a
damaged square, a chunk and an edge trigger. -/
theorem C4_witness :
    WF c4State ∧
    ((import_config tinyState (export_config c4State) 5).2 = none ∧
     export_config (import_config tinyState (export_config c4State) 5).1 =
       export_config c4State) :=
  ⟨by decide, C4_roundtrip c4State tinyState 5 (by decide)⟩

end AtomicChess
